import Mathlib

/-!
# noctober: the highlight-to-payload transformation of `backend/notado.go`

A shallow embedding of `BuildPayload`, `NormaliseText` and `SendBookmarks` and of the
functions they call, followed by theorems about the batches that are built and the
request that is sent.

Conventions of the embedding.

* A Go `string` is a `List Char`: texts are taken to be valid UTF-8 and are seen as
  their sequence of code points.  Lengths and offsets count characters.
* A Go slice is a `List`; a `nil` slice and an empty slice are both `[]`.
* A Go `(value, error)` result is a pair whose second component is an `Option`.
* Calls to the logger and to `fmt.Println` only write diagnostics and are left out.
* The one effect of `SendBookmarks`, the call of `client.Do`, is a function of the
  request; the requests handed to it are returned with the result.
* Library functions (`time.Parse`, `Time.Format`, `strings.*`, `path.Base`) are
  written out for the arguments `BuildPayload` passes to them.
* `url.Parse`, the wall clock and the constant `MaxHighlightLen` are inputs of the
  embedding, gathered in `Env`; `urlParsePath` models `url.Parse` where a concrete
  identifier is evaluated.
* `splitHighlight`, `Bookmark` and `Content` are declared outside the sources at hand
  and are modelled from the specification.
-/

set_option autoImplicit false

namespace Noctober

/-- A Go string, as its sequence of characters. -/
abbrev Str := List Char

/-! ## Data model -/

/-- Modelled from the spec: the `Bookmark` record, whose declaration is not among the
sources.  Only the five fields read by `BuildPayload` are kept: source identifier,
highlighted text, annotation, creation timestamp and modification timestamp. -/
structure Bookmark where
  VolumeID : Str
  Text : Str
  Annotation : Str
  DateCreated : Str
  DateModified : Str
deriving DecidableEq

/-- Modelled from the spec: the `Content` record, whose declaration is not among the
sources: source identifier, title and attribution, each possibly empty. -/
structure Content where
  ContentID : Str
  Title : Str
  Attribution : Str
deriving DecidableEq

/-- The `Highlight` struct of `notado.go`. -/
structure Highlight where
  Content : Str
  URL : Str
  Title : Str
  Created : Str
  Tags : List Str
  Author : Str
deriving DecidableEq

/-- The `Response` struct of `notado.go`: one batch of highlights. -/
structure Response where
  Highlights : List Highlight
deriving DecidableEq

/-- A Go `map[string]Content`. -/
abbrev ContentIndex := Str → Option Content

/-- The zero value of `Content`, which indexing a map yields for a missing key. -/
def Content.zero : Content := ⟨[], [], []⟩

/-- The expression `contentIndex[key]`. -/
def ContentIndex.get (m : ContentIndex) (key : Str) : Content :=
  (m key).getD Content.zero

/-- The constant `HIGHLIGHT_REQUEST_BATCH_MAX`. -/
def HIGHLIGHT_REQUEST_BATCH_MAX : Nat := 2000

/-! ## `time.Parse` and `Time.Format` for the three layouts of `BuildPayload` -/

/-- The fields of a `time.Time` that `Format` prints for the layout
`2006-01-02T15:04:05-07:00`: civil date and time of day in the zone of the value, and
the offset of that zone in seconds east of UTC.  `time.Parse` builds its result with
`time.Date` from fields it has range-checked, so the fields read back are the fields
parsed; the nanoseconds are not printed by the layout and are not kept. -/
structure Time where
  year : Int
  month : Nat
  day : Nat
  hour : Nat
  minute : Nat
  second : Nat
  offset : Int
deriving DecidableEq

/-- The error of `time.Parse`: a `*time.ParseError`, of which the layout and the
offending value are kept. -/
structure ParseError where
  Layout : Str
  Value : Str
deriving DecidableEq

/-- The byte test of `isDigit` in package `time`. -/
def isDigit (c : Char) : Bool := decide (48 ≤ c.toNat) && decide (c.toNat ≤ 57)

/-- The value `c - '0'` of a digit. -/
def digitVal (c : Char) : Nat := c.toNat - 48

/-- The digit character `'0' + v`. -/
def digitChar (v : Nat) : Char := Char.ofNat (48 + v)

/-- The function `getnum` of package `time`: one or two leading digits; with `fixed`
exactly two are required. -/
def getnum (s : Str) (fixed : Bool) : Option (Nat × Str) :=
  match s with
  | [] => none
  | [c0] => if isDigit c0 && !fixed then some (digitVal c0, []) else none
  | c0 :: c1 :: rest =>
    if !isDigit c0 then none
    else if !isDigit c1 then (if fixed then none else some (digitVal c0, c1 :: rest))
    else some (digitVal c0 * 10 + digitVal c1, rest)

/-- The layout element `2006`: exactly four digits. -/
def getYear (s : Str) : Option (Nat × Str) :=
  match s with
  | a :: b :: c :: d :: rest =>
    if isDigit a && isDigit b && isDigit c && isDigit d then
      some (digitVal a * 1000 + digitVal b * 100 + digitVal c * 10 + digitVal d, rest)
    else none
  | _ => none

/-- The function `skip` of package `time` for a one-character literal of the layout. -/
def skipChar (c : Char) (s : Str) : Option Str :=
  match s with
  | [] => none
  | x :: rest => if x = c then some rest else none

/-- The function `commaOrPeriod` of package `time`. -/
def commaOrPeriod (c : Char) : Bool := c = '.' || c = ','

/-- The layout element `.000`: a comma or period and then three bytes that `atoi`
accepts with a value that is not negative.  `atoi` reads an optional sign first, so
the three bytes are three digits, or `+` and two digits, or `-` and two zeros. -/
def fracSecond3 (s : Str) : Option Str :=
  match s with
  | p :: a :: b :: c :: rest =>
    if !commaOrPeriod p then none
    else if a = '+' || a = '-' then
      (if isDigit b && isDigit c then
        (if a = '-' && decide (0 < digitVal b * 10 + digitVal c) then none else some rest)
       else none)
    else if isDigit a && isDigit b && isDigit c then some rest
    else none
  | _ => none

/-- The special case of the seconds element when the layout holds no fractional
seconds: a comma or period followed by a digit starts a fraction, which is read up
to its last digit and dropped. -/
def skipFraction (s : Str) : Str :=
  match s with
  | p :: d :: rest =>
    if commaOrPeriod p && isDigit d then rest.dropWhile isDigit else s
  | _ => s

/-- The function `isLeap` of package `time`. -/
def isLeap (year : Nat) : Bool :=
  year % 4 = 0 && (year % 100 ≠ 0 || year % 400 = 0)

/-- The function `daysIn` of package `time`. -/
def daysIn (month year : Nat) : Nat :=
  if month = 2 then (if isLeap year then 29 else 28)
  else if month = 4 ∨ month = 6 ∨ month = 9 ∨ month = 11 then 30
  else 31

/-- The elements `2006-01-02T15:04:05` shared by the two parsed layouts: year, month,
day, hour, minute and second with the range checks of `time.Parse`, and the rest of
the value.  The hour element `15` takes one or two digits, the others are fixed. -/
def parseDateTime (value : Str) : Option (Time × Str) := do
  let (year, v) ← getYear value
  let v ← skipChar '-' v
  let (month, v) ← getnum v true
  if month = 0 ∨ 12 < month then none
  let v ← skipChar '-' v
  let (day, v) ← getnum v true
  let v ← skipChar 'T' v
  let (hour, v) ← getnum v false
  if 24 ≤ hour then none
  let v ← skipChar ':' v
  let (minute, v) ← getnum v true
  if 60 ≤ minute then none
  let v ← skipChar ':' v
  let (second, v) ← getnum v true
  if 60 ≤ second then none
  if day < 1 ∨ daysIn month year < day then none
  some (⟨(year : Int), month, day, hour, minute, second, 0⟩, v)

/-- The layout `2006-01-02T15:04:05.000`. -/
def layoutCreated : Str := "2006-01-02T15:04:05.000".toList

/-- The layout `2006-01-02T15:04:05Z`. -/
def layoutModified : Str := "2006-01-02T15:04:05Z".toList

/-- The call `time.Parse("2006-01-02T15:04:05.000", value)`; the result is in UTC. -/
def parseCreated (value : Str) : Except ParseError Time :=
  match parseDateTime value with
  | none => .error ⟨layoutCreated, value⟩
  | some (t, v) =>
    match fracSecond3 v with
    | some [] => .ok t
    | _ => .error ⟨layoutCreated, value⟩

/-- The call `time.Parse("2006-01-02T15:04:05Z", value)`; the `Z` of this layout is a
literal, and the result is in UTC. -/
def parseModified (value : Str) : Except ParseError Time :=
  match parseDateTime value with
  | none => .error ⟨layoutModified, value⟩
  | some (t, v) =>
    match skipChar 'Z' (skipFraction v) with
    | some [] => .ok t
    | _ => .error ⟨layoutModified, value⟩

/-- The decimal digits of a natural number, most significant first. -/
def decimal (n : Nat) : Str := Nat.toDigits 10 n

/-- The function `appendInt` of package `time`: a sign for a negative number, then the
decimal form padded with zeros to the width.  The two and four digit cases are the
ones the Go code reads from its digit tables. -/
def appendInt (x : Int) (width : Nat) : Str :=
  let u := x.natAbs
  let sign : Str := if x < 0 then ['-'] else []
  if width = 2 ∧ u < 100 then
    sign ++ [digitChar (u / 10), digitChar (u % 10)]
  else if width = 4 ∧ u < 10000 then
    sign ++ [digitChar (u / 100 / 10), digitChar (u / 100 % 10),
             digitChar (u % 100 / 10), digitChar (u % 100 % 10)]
  else
    sign ++ List.replicate (width - (decimal u).length) '0' ++ decimal u

/-- The layout element `-07:00`: sign, hours and minutes of the offset. -/
def formatZone (offset : Int) : Str :=
  let zone := Int.tdiv offset 60
  let sign : Char := if zone < 0 then '-' else '+'
  let z := zone.natAbs
  sign :: (appendInt ((z / 60 : Nat) : Int) 2 ++ [':'] ++ appendInt ((z % 60 : Nat) : Int) 2)

/-- The call `t.Format("2006-01-02T15:04:05-07:00")`. -/
def formatTime (t : Time) : Str :=
  appendInt t.year 4 ++ ['-'] ++ appendInt t.month 2 ++ ['-'] ++ appendInt t.day 2 ++ ['T'] ++
    appendInt t.hour 2 ++ [':'] ++ appendInt t.minute 2 ++ [':'] ++ appendInt t.second 2 ++
    formatZone t.offset

/-! ## Package `strings` and `path` -/

/-- The predicate `unicode.IsSpace`. -/
def isSpace (c : Char) : Bool :=
  let n := c.toNat
  n = 9 || n = 10 || n = 11 || n = 12 || n = 13 || n = 32 || n = 0x85 || n = 0xA0 ||
    n = 0x1680 || (decide (0x2000 ≤ n) && decide (n ≤ 0x200A)) || n = 0x2028 || n = 0x2029 ||
    n = 0x202F || n = 0x205F || n = 0x3000

/-- The function `strings.TrimSpace`. -/
def TrimSpace (s : Str) : Str :=
  ((s.dropWhile isSpace).reverse.dropWhile isSpace).reverse

/-- The call `strings.ReplaceAll(s, "\n", " ")`. -/
def replaceNewlines (s : Str) : Str :=
  s.map (fun c => if c = '\n' then ' ' else c)

/-- The function `NormaliseText` of `notado.go`. -/
def NormaliseText (s : Str) : Str :=
  let s := TrimSpace s
  let s := replaceNewlines s
  s

/-- The call `strings.Split(s, " ")`: the pieces between single spaces; the empty
string gives one empty piece. -/
def splitOnSpace : Str → List Str
  | [] => [[]]
  | c :: cs =>
    if c = ' ' then [] :: splitOnSpace cs
    else
      match splitOnSpace cs with
      | [] => [[c]]
      | t :: ts => (c :: t) :: ts

/-- The call `strings.HasPrefix(s, ".")`. -/
def startsWithDot (s : Str) : Bool :=
  match s with
  | c :: _ => c = '.'
  | [] => false

/-- The call `strings.TrimPrefix(s, ".")`. -/
def dropLeadingDot (s : Str) : Str :=
  match s with
  | c :: rest => if c = '.' then rest else s
  | [] => s

/-- The function `strings.TrimSuffix`. -/
def TrimSuffix (s suffix : Str) : Str :=
  if suffix.isSuffixOf s then s.take (s.length - suffix.length) else s

/-- The function `path.Base`: the last element of a path, after trailing slashes are
removed; `.` for the empty path and `/` for a path of slashes only. -/
def pathBase (p : Str) : Str :=
  if p = [] then ['.']
  else
    let p := (p.reverse.dropWhile (fun c => c = '/')).reverse
    let p := (p.reverse.takeWhile (fun c => c ≠ '/')).reverse
    if p = [] then ['/'] else p

/-! ## Package `net/url`: a model of `url.Parse` for concrete identifiers -/

/-- The byte test of `stringContainsCTLByte` in package `net/url`. -/
def isCTL (c : Char) : Bool := decide (c.toNat < 32) || c.toNat = 127

/-- An ASCII letter. -/
def isLetter (c : Char) : Bool :=
  (decide (97 ≤ c.toNat) && decide (c.toNat ≤ 122)) || (decide (65 ≤ c.toNat) && decide (c.toNat ≤ 90))

/-- The function `ishex` of package `net/url`. -/
def isHex (c : Char) : Bool :=
  isDigit c || (decide (97 ≤ c.toNat) && decide (c.toNat ≤ 102)) ||
    (decide (65 ≤ c.toNat) && decide (c.toNat ≤ 70))

/-- The function `unhex` of package `net/url`. -/
def unhex (c : Char) : Nat :=
  if isDigit c then c.toNat - 48
  else if decide (97 ≤ c.toNat) && decide (c.toNat ≤ 102) then c.toNat - 97 + 10
  else if decide (65 ≤ c.toNat) && decide (c.toNat ≤ 70) then c.toNat - 65 + 10
  else 0

/-- The function `getScheme` of package `net/url`, reading `rawURL` from position `i`
on: `none` for the error of a leading colon, else the scheme and what follows it. -/
def getSchemeFrom (rawURL : Str) : Str → Nat → Option (Str × Str)
  | [], _ => some ([], rawURL)
  | c :: cs, i =>
    if isLetter c then getSchemeFrom rawURL cs (i + 1)
    else if isDigit c || c = '+' || c = '-' || c = '.' then
      (if i = 0 then some ([], rawURL) else getSchemeFrom rawURL cs (i + 1))
    else if c = ':' then
      (if i = 0 then none else some (rawURL.take i, cs))
    else some ([], rawURL)

/-- The check of `unescape` in package `net/url`: every `%` starts a well-formed escape
and, in a host, no ASCII character is one that a host must escape. -/
def escapesOK (host : Bool) : Str → Bool
  | [] => true
  | '%' :: a :: b :: rest =>
    isHex a && isHex b && (!host || decide (8 ≤ unhex a) || (a = '2' && b = '5')) &&
      escapesOK host rest
  | '%' :: _ => false
  | c :: rest =>
    (!host || decide (128 ≤ c.toNat) || isLetter c || isDigit c ||
      c ∈ "!$&'()*+,;=:[]<>\"-_.~".toList) && escapesOK host rest

/-- The decoding of `unescape` for a path.  An escape of an ASCII character becomes
that character; an escape of a byte from 128 on is part of a longer UTF-8 sequence
and is left as written. -/
def decodePath : Str → Str
  | [] => []
  | '%' :: a :: b :: rest =>
    if isHex a && isHex b && decide (unhex a < 8) then
      Char.ofNat (unhex a * 16 + unhex b) :: decodePath rest
    else '%' :: a :: b :: decodePath rest
  | c :: rest => c :: decodePath rest

/-- The function `validOptionalPort` of package `net/url`. -/
def validOptionalPort (port : Str) : Bool :=
  match port with
  | [] => true
  | c :: rest => c = ':' && rest.all isDigit

/-- The function `validUserinfo` of package `net/url`. -/
def validUserinfo (s : Str) : Bool :=
  s.all (fun c => isLetter c || isDigit c || c ∈ "-._:~!$&'()*+,;=%@".toList)

/-- The part of a string after its last occurrence of `c`, if `c` occurs. -/
def afterLast (c : Char) (s : Str) : Option Str :=
  if c ∈ s then some (s.reverse.takeWhile (fun x => x ≠ c)).reverse else none

/-- The checks of `parseAuthority` in package `net/url`: the user information before
the last `@` and the host after it.  For a host in brackets only the closing bracket,
the port and the escapes are checked. -/
def authorityOK (authority : Str) : Bool :=
  let host := (afterLast '@' authority).getD authority
  let userOK :=
    match afterLast '@' authority with
    | none => true
    | some h =>
      let userinfo := authority.take (authority.length - h.length - 1)
      validUserinfo userinfo && escapesOK false userinfo
  let portOK :=
    if ['['].isPrefixOf host then
      match afterLast ']' host with
      | none => false
      | some port => validOptionalPort port
    else
      match afterLast ':' host with
      | none => true
      | some port => validOptionalPort (':' :: port)
  userOK && portOK && escapesOK true host

/-- The call `url.Parse(rawURL)`: `none` for an error, else the `Path` of the result.
The steps of `url.Parse` are followed: the fragment is cut off, control characters
are refused, the scheme and the query are split off, a rootless path after a scheme
is opaque, a colon in the first segment of a relative path is refused, the authority
is split off and checked, and the path is unescaped.  Two parts are simplified, the
check of a host in brackets and the decoding of escaped bytes from 128 on, so this
function is evaluated only on identifiers without brackets and without `%`; the
general theorems take `url.Parse` from the environment and hold for any behaviour
of it. -/
def urlParsePath (rawURL : Str) : Option Str :=
  let u := rawURL.takeWhile (fun c => c ≠ '#')
  let frag := (rawURL.dropWhile (fun c => c ≠ '#')).drop 1
  if u.any isCTL then none
  else if u = ['*'] then (if escapesOK false frag then some ['*'] else none)
  else
    match getSchemeFrom u u 0 with
    | none => none
    | some (scheme, rest) =>
      let rest := rest.takeWhile (fun c => c ≠ '?')
      if rest.head? ≠ some '/' ∧ scheme ≠ [] then
        (if escapesOK false frag then some [] else none)
      else if rest.head? ≠ some '/' ∧ ':' ∈ rest.takeWhile (fun c => c ≠ '/') then none
      else
        let hasAuthority : Bool :=
          (decide (scheme ≠ []) || !("///".toList).isPrefixOf rest) && ("//".toList).isPrefixOf rest
        let authority := if hasAuthority then (rest.drop 2).takeWhile (fun c => c ≠ '/') else []
        let path := if hasAuthority then (rest.drop 2).dropWhile (fun c => c ≠ '/') else rest
        if hasAuthority && !authorityOK authority then none
        else if escapesOK false path && escapesOK false frag then some (decodePath path)
        else none

/-! ## The chunk splitter -/

/-- The chunks of a text, at most `fuel` of them. -/
def splitChunks : Nat → Str → Nat → List Str
  | 0, _, _ => []
  | fuel + 1, text, maxLen =>
    if text = [] then []
    else text.take maxLen :: splitChunks fuel (text.drop maxLen) maxLen

/-- Modelled from the spec: the chunk splitter `splitHighlight`, which `BuildPayload`
calls and whose body is not among the sources.  Consecutive pieces of `maxLen`
characters, the last one possibly shorter, whose concatenation is the text; a text
of at most `maxLen` characters is one chunk and the empty text has no chunk.  For a
positive `maxLen` a text has at most as many chunks as characters. -/
def splitHighlight (text : Str) (maxLen : Nat) : List Str :=
  splitChunks text.length text maxLen

/-! ## `BuildPayload` -/

/-- What `BuildPayload` reads from outside its arguments. -/
structure Env where
  /-- The call `url.Parse(s)`: `none` for an error, else the `Path` of the result. -/
  urlParse : Str → Option Str
  /-- The value of `time.Now()` while the bookmark of the given index is processed. -/
  now : Nat → Time
  /-- The constant `MaxHighlightLen`, whose declaration is not among the sources. -/
  MaxHighlightLen : Nat

/-- The environment seen by a run that starts `n` bookmarks later. -/
def Env.shift (env : Env) (n : Nat) : Env :=
  { env with now := fun i => env.now (i + n) }

/-- The placeholder content of a bookmark that has an annotation and no text. -/
def placeholder : Str := "Placeholder for attached annotation".toList

/-- Lines 121-158 of `BuildPayload`: the creation timestamp of a bookmark, from its
creation date, else from its modification date, else from the clock. -/
def resolveCreatedAt (now : Time) (entry : Bookmark) : Except ParseError Str :=
  if entry.DateCreated = [] then
    if entry.DateModified = [] then
      .ok (formatTime now)
    else
      match parseModified entry.DateModified with
      | .error err => .error err
      | .ok t => .ok (formatTime t)
  else
    match parseCreated entry.DateCreated with
    | .error err => .error err
    | .ok t => .ok (formatTime t)

/-- Lines 174-196 of `BuildPayload`: the title of the source, and for an empty title
the file name of the identifier without `.epub`; a `url.Parse` error keeps the
empty title. -/
def resolveTitle (env : Env) (source : Content) (entry : Bookmark) : Str :=
  if source.Title = [] then
    match env.urlParse entry.VolumeID with
    | none => source.Title
    | some path => TrimSuffix (pathBase path) ".epub".toList
  else source.Title

/-- Lines 200-206 of `BuildPayload`: the tags of an annotation. -/
def extractTags ( annotation : Str) : List Str :=
  (splitOnSpace annotation).foldl
    (fun tags possibleTag =>
      if startsWithDot possibleTag then tags ++ [dropLeadingDot possibleTag] else tags)
    []

/-- Lines 159-165 of `BuildPayload`: the normalised text of a bookmark, and the
placeholder for a bookmark that has an annotation and no text. -/
def contentBody (entry : Bookmark) : Str :=
  let text := NormaliseText entry.Text
  if entry.Annotation ≠ [] ∧ text = [] then placeholder else text

/-- Lines 117 and 166-217 of `BuildPayload`: the highlights appended to the current
batch for one bookmark whose timestamp resolved to `createdAt`.  The `continue` of a
bookmark with neither text nor annotation appends nothing. -/
def entryHighlights (env : Env) (contentIndex : ContentIndex) (entry : Bookmark)
    (createdAt : Str) : List Highlight :=
  let source := contentIndex.get entry.VolumeID
  let text := contentBody entry
  if entry.Annotation = [] ∧ text = [] then []
  else
    let title := resolveTitle env source entry
    (splitHighlight text env.MaxHighlightLen).map (fun chunk =>
      { Content := chunk
        URL := entry.VolumeID
        Title := title ++ " - ".toList ++ source.Attribution
        Created := createdAt
        Tags := extractTags entry.Annotation
        Author := source.Attribution })

/-- The loop of `BuildPayload` from the bookmark of index `count` on, with the sealed
batches `payloads` and the open batch `currentBatch`. -/
def buildLoop (env : Env) (contentIndex : ContentIndex) :
    List Bookmark → Nat → List Response → Response → List Response × Option ParseError
  | [], _, payloads, currentBatch => (payloads ++ [currentBatch], none)
  | entry :: rest, count, payloads, currentBatch =>
    let rolled : List Response × Response :=
      if 0 < count ∧ count % HIGHLIGHT_REQUEST_BATCH_MAX = 0 then
        (payloads ++ [currentBatch], ⟨[]⟩)
      else (payloads, currentBatch)
    match resolveCreatedAt (env.now count) entry with
    | .error err => ([], some err)
    | .ok createdAt =>
      buildLoop env contentIndex rest (count + 1) rolled.1
        ⟨rolled.2.Highlights ++ entryHighlights env contentIndex entry createdAt⟩

/-- The function `BuildPayload` of `notado.go`. -/
def BuildPayload (env : Env) (bookmarks : List Bookmark) (contentIndex : ContentIndex) :
    List Response × Option ParseError :=
  buildLoop env contentIndex bookmarks 0 [] ⟨[]⟩

/-- All highlights of a batch sequence, in order. -/
def allHighlights : List Response → List Highlight
  | [] => []
  | payload :: rest => payload.Highlights ++ allHighlights rest

/-! ## `SendBookmarks` -/

/-- The `Notado` struct of `notado.go`, without its logger. -/
structure Notado where
  UserAgent : Str
deriving DecidableEq

/-- The request `SendBookmarks` hands to `client.Do`: method, address, the three headers
it adds, and the body as the value given to `json.Marshal`, a query with the variable
`notes`. -/
structure Request where
  Method : Str
  URL : Str
  ApiToken : Str
  ContentType : Str
  UserAgent : Str
  Query : Str
  Notes : List Highlight
deriving DecidableEq

/-- What `client.Do` gives back: an error, or a response, of which `SendBookmarks` uses
the status code. -/
inductive Exchange where
  | failed (err : Str)
  | response (StatusCode : Int)
deriving DecidableEq

/-- The errors `SendBookmarks` builds for a request that could not be sent and for a
status code other than 200. -/
inductive SendError where
  | notSent (err : Str)
  | status (code : Int)
deriving DecidableEq

/-- The result `(int, error)` of `SendBookmarks`, and the requests it handed to
`client.Do`, in order. -/
structure Sent where
  count : Nat
  err : Option SendError
  requests : List Request
deriving DecidableEq

/-- The mutation document of the request body. -/
def importNotesQuery : Str :=
  "mutation ImportNotes($notes: [NewImportNote!]!) \x7b\n\t\t\timportNotes(notes: $notes)\n\t\t\x7d".toList

/-- The method `SendBookmarks` of `notado.go`.  `client` stands for `client.Do`, one
exchange with the remote service.  The error returns after `json.Marshal` and
`http.NewRequest` are left out: marshalling strings and slices of strings does not
fail, and neither does building a request from a constant method and address. -/
def SendBookmarks (n : Notado) (client : Request → Exchange) (payloads : List Response)
    (token : Str) : Sent :=
  let allHighlights : List Highlight :=
    payloads.foldl (fun acc payload => acc ++ payload.Highlights) []
  if allHighlights.length = 0 then
    ⟨0, none, []⟩
  else
    let req : Request :=
      { Method := "POST".toList
        URL := "https://notado.app/graphql".toList
        ApiToken := token
        ContentType := "application/json".toList
        UserAgent := n.UserAgent
        Query := importNotesQuery
        Notes := allHighlights }
    match client req with
    | .failed err => ⟨0, some (.notSent err), [req]⟩
    | .response code =>
      if code ≠ 200 then ⟨0, some (.status code), [req]⟩
      else ⟨allHighlights.length, none, [req]⟩

/-! ## Notions used by the statements -/

/-- Whether a result of `time.Parse` is an error. -/
def parseFails (r : Except ParseError Time) : Bool :=
  match r with
  | .ok _ => false
  | .error _ => true

/-- A bookmark whose timestamp does not resolve: a non-empty creation timestamp that
does not parse, or an empty creation timestamp with a non-empty modification
timestamp that does not parse. -/
def badTimestamp (b : Bookmark) : Bool :=
  (b.DateCreated ≠ [] && parseFails (parseCreated b.DateCreated)) ||
  (b.DateCreated = [] && b.DateModified ≠ [] && parseFails (parseModified b.DateModified))

/-- The highlights `BuildPayload` returns for one bookmark on its own, read with the
clock of position `i`. -/
def producedBy (env : Env) (contentIndex : ContentIndex) (i : Nat) (b : Bookmark) :
    List Highlight :=
  allHighlights (BuildPayload (env.shift i) [b] contentIndex).1

/-- The highlights produced by consecutive bookmarks, the first one at position `i`. -/
def producedFrom (env : Env) (contentIndex : ContentIndex) : Nat → List Bookmark → List Highlight
  | _, [] => []
  | i, b :: rest => producedBy env contentIndex i b ++ producedFrom env contentIndex (i + 1) rest

/-- Whether a string is written as a template asks: a `d` of the template stands for a
digit, and every other character stands for itself. -/
def matchesShape : Str → Str → Bool
  | [], [] => true
  | t :: ts, c :: cs => (if t = 'd' then isDigit c else decide (c = t)) && matchesShape ts cs
  | _, _ => false

/-- A creation timestamp written `YYYY-MM-DDTHH:MM:SS.fff`. -/
def shapeCreated (s : Str) : Bool := matchesShape "dddd-dd-ddTdd:dd:dd.ddd".toList s

/-- A modification timestamp written `YYYY-MM-DDTHH:MM:SSZ`. -/
def shapeModified (s : Str) : Bool := matchesShape "dddd-dd-ddTdd:dd:ddZ".toList s

/-- The number written by the two digits at positions `i` and `i + 1`. -/
def twoDigits (s : Str) (i : Nat) : Nat :=
  digitVal (s.getD i '0') * 10 + digitVal (s.getD (i + 1) '0')

/-- Whether the fields of a timestamp written `YYYY-MM-DDTHH:MM:SS...` name a day of
the calendar and a time of day. -/
def calendarOK (s : Str) : Bool :=
  let year := twoDigits s 0 * 100 + twoDigits s 2
  let month := twoDigits s 5
  let day := twoDigits s 8
  decide (1 ≤ month) && decide (month ≤ 12) && decide (1 ≤ day) && decide (day ≤ daysIn month year) &&
    decide (twoDigits s 11 < 24) && decide (twoDigits s 14 < 60) && decide (twoDigits s 17 < 60)

/-- In the run on `pre ++ b :: post` no error is returned, and the highlights returned
are those of the run on `pre`, then `hs`, then those of the run on `post` read with
the clock of its place: `hs` is what the run emits for the bookmark `b`. -/
def EmitsInContext (env : Env) (contentIndex : ContentIndex) (pre : List Bookmark)
    (b : Bookmark) (post : List Bookmark) (hs : List Highlight) : Prop :=
  (BuildPayload env (pre ++ b :: post) contentIndex).2 = none ∧
  allHighlights (BuildPayload env (pre ++ b :: post) contentIndex).1 =
    allHighlights (BuildPayload env pre contentIndex).1 ++ hs ++
      allHighlights (BuildPayload (env.shift (pre.length + 1)) post contentIndex).1

/-- The tag of a token: what follows its leading `.`, if it has one. -/
def dotTag (token : Str) : Option Str :=
  match token with
  | '.' :: rest => some rest
  | _ => none

/-- The tokens written one after the other with one space between neighbours. -/
def joinWithSpaces : List Str → Str
  | [] => []
  | [t] => t
  | t :: u :: rest => t ++ ' ' :: joinWithSpaces (u :: rest)

/-- The tokens of an annotation that begin with `.`, in order. -/
def dotTokens ( annotation : Str) : List Str :=
  (splitOnSpace annotation).filter startsWithDot

/-- Two bookmarks that are the same, or differ only in their annotations, both of them
non-empty and with the same tokens that begin with `.`. -/
def annotationVariant (b1 b2 : Bookmark) : Prop :=
  b1 = b2 ∨
  ( b1.VolumeID = b2.VolumeID ∧ b1.Text = b2.Text ∧ b1.DateCreated = b2.DateCreated ∧
    b1.DateModified = b2.DateModified ∧ b1.Annotation ≠ [] ∧ b2.Annotation ≠ [] ∧
    dotTokens b1.Annotation = dotTokens b2.Annotation)

/-- Two bookmarks that differ at most in their annotations, which are both empty or
both non-empty and give the same tags. -/
def sameEmptinessAndTags (b1 b2 : Bookmark) : Prop :=
  b1.VolumeID = b2.VolumeID ∧ b1.Text = b2.Text ∧ b1.DateCreated = b2.DateCreated ∧
  b1.DateModified = b2.DateModified ∧ ( b1.Annotation = [] ↔ b2.Annotation = []) ∧
  extractTags b1.Annotation = extractTags b2.Annotation

/-! ## Sample inputs -/

/-- A clock that reads 12:00:00 on 1 November 2026, five and a half hours west of UTC. -/
def sampleClock : Nat → Time := fun _ => ⟨2026, 11, 1, 12, 0, 0, -19800⟩

/-- An environment with the model of `url.Parse`, the sample clock and chunks of at most
8191 characters. -/
def sampleEnv : Env := ⟨urlParsePath, sampleClock, 8191⟩

/-- The identifier of the sample book. -/
def sampleID : Str := "mnt://kobo/blah/Good Book - An Author.epub".toList

/-- An index that maps the sample identifier to a book with title and author. -/
def sampleIndex : ContentIndex :=
  fun k => if k = sampleID then some ⟨sampleID, "A Book".toList, "Computer".toList⟩ else none

/-- An index that maps the sample identifier to a book without title or author. -/
def untitledIndex : ContentIndex :=
  fun k => if k = sampleID then some ⟨sampleID, [], []⟩ else none

/-- A bookmark of the sample book with text, annotation and a creation timestamp. -/
def sampleBookmark : Bookmark :=
  ⟨sampleID, "Hello World".toList, "Making a note here".toList,
    "2006-01-02T15:04:05.000".toList, []⟩

/-- A client of the sample service: its address answers 200 and any other address 404. -/
def sampleClient : Request → Exchange :=
  fun req => if req.URL = "https://notado.app/graphql".toList then .response 200 else .response 404

/-- A client of a service that answers 500. -/
def failingClient : Request → Exchange := fun _ => .response 500

/-- The sender of the samples. -/
def sampleNotado : Notado := ⟨"noctober/v1.0.0".toList⟩

/-! ## Helper lemmas -/

theorem allHighlights_append (xs ys : List Response) :
    allHighlights (xs ++ ys) = allHighlights xs ++ allHighlights ys := by
  induction xs with
  | nil => rfl
  | cons x xs ih => simp [allHighlights, ih]

theorem resolve_error_iff (now : Time) (b : Bookmark) :
    (∃ err, resolveCreatedAt now b = .error err) ↔ badTimestamp b = true := by
  unfold resolveCreatedAt badTimestamp
  by_cases hc : b.DateCreated = []
  · by_cases hm : b.DateModified = []
    · simp [hc, hm]
    · simp only [hc, hm, if_true, if_false]
      cases hp : parseModified b.DateModified <;> simp [parseFails, hm]
  · simp only [hc, if_false]
    cases hp : parseCreated b.DateCreated <;> simp [parseFails, hc]

theorem resolve_ok_of_not_bad (now : Time) (b : Bookmark) (h : badTimestamp b = false) :
    ∃ c, resolveCreatedAt now b = .ok c := by
  cases hr : resolveCreatedAt now b with
  | ok c => exact ⟨c, rfl⟩
  | error err =>
    have := (resolve_error_iff now b).mp ⟨err, hr⟩
    simp [h] at this

theorem entryHighlights_shift (env : Env) (idx : ContentIndex) (n : Nat) (b : Bookmark)
    (c : Str) : entryHighlights (env.shift n) idx b c = entryHighlights env idx b c := rfl

theorem producedBy_eq (env : Env) (idx : ContentIndex) (i : Nat) (b : Bookmark) (c : Str)
    (h : resolveCreatedAt (env.now i) b = .ok c) :
    producedBy env idx i b = entryHighlights env idx b c := by
  have h2 : resolveCreatedAt ((env.shift i).now 0) b = .ok c := by
    simpa [Env.shift] using h
  simp only [producedBy, BuildPayload, buildLoop, h2, entryHighlights_shift]
  simp [allHighlights]

/-- The loop on bookmarks that all resolve: no error, and the highlights returned are
those held at the start followed by those of the bookmarks, in order. -/
theorem buildLoop_ok (env : Env) (idx : ContentIndex) (bs : List Bookmark)
    (h : ∀ b ∈ bs, badTimestamp b = false) (count : Nat) (payloads : List Response)
    (cur : Response) :
    (buildLoop env idx bs count payloads cur).2 = none ∧
    allHighlights (buildLoop env idx bs count payloads cur).1 =
      allHighlights payloads ++ cur.Highlights ++ producedFrom env idx count bs := by
  induction bs generalizing count payloads cur with
  | nil => simp [buildLoop, allHighlights_append, allHighlights, producedFrom]
  | cons e rest ih =>
    obtain ⟨c, hc⟩ := resolve_ok_of_not_bad (env.now count) e (h e (List.mem_cons_self _ _))
    have hrest : ∀ b ∈ rest, badTimestamp b = false :=
      fun b hb => h b (List.mem_cons_of_mem _ hb)
    simp only [buildLoop, hc, producedFrom, producedBy_eq env idx count e c hc]
    constructor
    · exact (ih hrest _ _ _).1
    · rw [(ih hrest _ _ _).2]
      split <;> simp [allHighlights_append, allHighlights]

/-- The loop on bookmarks one of which does not resolve: an error and no batch. -/
theorem buildLoop_error (env : Env) (idx : ContentIndex) (bs : List Bookmark)
    (h : ∃ b ∈ bs, badTimestamp b = true) (count : Nat) (payloads : List Response)
    (cur : Response) :
    ∃ err, buildLoop env idx bs count payloads cur = ([], some err) := by
  induction bs generalizing count payloads cur with
  | nil => simp at h
  | cons e rest ih =>
    cases hr : resolveCreatedAt (env.now count) e with
    | error err => exact ⟨err, by simp [buildLoop, hr]⟩
    | ok c =>
      have hne : badTimestamp e ≠ true := fun hb => by
        obtain ⟨err, herr⟩ := (resolve_error_iff (env.now count) e).mpr hb
        rw [hr] at herr
        cases herr
      obtain ⟨b, hb, hbad⟩ := h
      rcases List.mem_cons.mp hb with rfl | hmem
      · exact absurd hbad hne
      · simpa [buildLoop, hr] using ih ⟨b, hmem, hbad⟩ _ _ _

theorem producedFrom_append (env : Env) (idx : ContentIndex) (xs ys : List Bookmark) (i : Nat) :
    producedFrom env idx i (xs ++ ys) =
      producedFrom env idx i xs ++ producedFrom env idx (i + xs.length) ys := by
  induction xs generalizing i with
  | nil => simp [producedFrom]
  | cons x xs ih =>
    simp [producedFrom, ih, Nat.add_assoc, Nat.add_comm 1]

theorem producedBy_shift (env : Env) (idx : ContentIndex) (n i : Nat) (b : Bookmark) :
    producedBy (env.shift n) idx i b = producedBy env idx (i + n) b := by
  simp [producedBy, Env.shift, Nat.add_assoc]

theorem producedFrom_shift (env : Env) (idx : ContentIndex) (n : Nat) (bs : List Bookmark)
    (i : Nat) :
    producedFrom (env.shift n) idx i bs = producedFrom env idx (i + n) bs := by
  induction bs generalizing i with
  | nil => simp [producedFrom]
  | cons x xs ih =>
    simp [producedFrom, ih, producedBy_shift, Nat.add_assoc, Nat.add_comm 1, Nat.add_left_comm]

theorem BuildPayload_ok (env : Env) (idx : ContentIndex) (bs : List Bookmark)
    (h : ∀ b ∈ bs, badTimestamp b = false) :
    (BuildPayload env bs idx).2 = none ∧
    allHighlights (BuildPayload env bs idx).1 = producedFrom env idx 0 bs := by
  have := buildLoop_ok env idx bs h 0 [] ⟨[]⟩
  simpa [BuildPayload, allHighlights] using this

/-- The sealed batches stay in front of what the loop returns. -/
theorem buildLoop_payloads (env : Env) (idx : ContentIndex) (bs : List Bookmark)
    (h : ∀ b ∈ bs, badTimestamp b = false) (count : Nat) (payloads : List Response)
    (cur : Response) :
    (buildLoop env idx bs count payloads cur).1 =
      payloads ++ (buildLoop env idx bs count [] cur).1 := by
  induction bs generalizing count payloads cur with
  | nil => simp [buildLoop]
  | cons e rest ih =>
    obtain ⟨c, hc⟩ := resolve_ok_of_not_bad (env.now count) e (h e (List.mem_cons_self _ _))
    have hrest : ∀ b ∈ rest, badTimestamp b = false :=
      fun b hb => h b (List.mem_cons_of_mem _ hb)
    simp only [buildLoop, hc]
    split
    · rw [ih hrest _ (payloads ++ [cur]) _, ih hrest _ ([] ++ [cur]) _]
      simp
    · exact ih hrest _ _ _

/-- The batches of the loop, one by one.  `p` is the number of bookmarks already taken
into the open batch: the open batch takes `2000 - p` more, and each later batch takes
the next 2000. -/
theorem buildLoop_batch (env : Env) (idx : ContentIndex) (bs : List Bookmark)
    (h : ∀ b ∈ bs, badTimestamp b = false) (count p : Nat) (cur : Response)
    (hp : p ≤ 2000) (h0 : p = 0 ↔ count = 0) (hmod : count % 2000 = p % 2000) (k : Nat) :
    (buildLoop env idx bs count [] cur).1[k]? =
      if k = 0 then
        some ⟨cur.Highlights ++ producedFrom env idx count (bs.take (2000 - p))⟩
      else if (2000 - p) + 2000 * (k - 1) < bs.length then
        some ⟨producedFrom env idx (count + (2000 - p) + 2000 * (k - 1))
          ((bs.drop ((2000 - p) + 2000 * (k - 1))).take 2000)⟩
      else none := by
  induction bs generalizing count p cur k with
  | nil =>
    cases k with
    | zero => simp [buildLoop, producedFrom]
    | succ k => simp [buildLoop]
  | cons e rest ih =>
    obtain ⟨c, hc⟩ := resolve_ok_of_not_bad (env.now count) e (h e (List.mem_cons_self _ _))
    have hrest : ∀ b ∈ rest, badTimestamp b = false :=
      fun b hb => h b (List.mem_cons_of_mem _ hb)
    have hpe := producedBy_eq env idx count e c hc
    simp only [buildLoop, hc, HIGHLIGHT_REQUEST_BATCH_MAX]
    by_cases hroll : 0 < count ∧ count % 2000 = 0
    · have hp2 : p = 2000 := by omega
      subst hp2
      simp only [hroll, and_self, if_true]
      rw [buildLoop_payloads env idx rest hrest]
      cases k with
      | zero => simp [producedFrom]
      | succ k =>
        have hih := ih hrest (count + 1) 1 ⟨entryHighlights env idx e c⟩
          (by omega) (by omega) (by omega) k
        simp only [List.nil_append, List.cons_append, List.getElem?_cons_succ]
        rw [hih]
        cases k with
        | zero => simp [producedFrom, hpe]
        | succ j =>
          have e1 : 2000 - 1 + 2000 * (j + 1 - 1) = 2000 * j + 1999 := by omega
          have e2 : 2000 - 2000 + 2000 * (j + 1 + 1 - 1) = (2000 * j + 1999) + 1 := by omega
          have e3 : count + 1 + (2000 - 1) + 2000 * (j + 1 - 1)
              = count + (2000 - 2000) + 2000 * (j + 1 + 1 - 1) := by omega
          simp only [Nat.add_sub_cancel] at e1 e2 e3 ⊢
          rw [e3, e1, e2]
          simp [List.drop_succ_cons]
    · have hp2 : p < 2000 := by
        rcases Nat.lt_or_ge p 2000 with hlt | hge
        · exact hlt
        · exfalso
          apply hroll
          have : p = 2000 := by omega
          subst this
          constructor <;> omega
      simp only [hroll, if_false]
      have hih := ih hrest (count + 1) (p + 1) ⟨cur.Highlights ++ entryHighlights env idx e c⟩
        (by omega) (by omega) (by omega) k
      rw [hih]
      obtain ⟨m, hm⟩ : ∃ m, 2000 - p = m + 1 := ⟨1999 - p, by omega⟩
      have hm2 : 2000 - (p + 1) = m := by omega
      rw [hm, hm2]
      cases k with
      | zero => simp [producedFrom, hpe]
      | succ j =>
        have e1 : m + 1 + 2000 * (j + 1 - 1) = (m + 2000 * (j + 1 - 1)) + 1 := by omega
        have e3 : count + 1 + m + 2000 * (j + 1 - 1) = count + (m + 1) + 2000 * (j + 1 - 1) := by
          omega
        rw [e1, e3]
        simp [List.drop_succ_cons]

theorem not_bad_of_no_error (env : Env) (idx : ContentIndex) (bs : List Bookmark)
    (h : (BuildPayload env bs idx).2 = none) : ∀ b ∈ bs, badTimestamp b = false := by
  intro b hb
  cases hbad : badTimestamp b with
  | false => rfl
  | true =>
    obtain ⟨err, herr⟩ := buildLoop_error env idx bs ⟨b, hb, hbad⟩ 0 [] ⟨[]⟩
    simp [BuildPayload, herr] at h

/-- The batches of `BuildPayload` on bookmarks that all resolve, one by one. -/
theorem BuildPayload_batch (env : Env) (idx : ContentIndex) (bs : List Bookmark)
    (h : ∀ b ∈ bs, badTimestamp b = false) (k : Nat) :
    (BuildPayload env bs idx).1[k]? =
      if k = 0 ∨ 2000 * k < bs.length then
        some ⟨producedFrom env idx (2000 * k) ((bs.drop (2000 * k)).take 2000)⟩
      else none := by
  have hb := buildLoop_batch env idx bs h 0 0 ⟨[]⟩ (by omega) (by simp) (by simp) k
  simp only [BuildPayload]
  rw [hb]
  cases k with
  | zero => simp
  | succ j =>
    have e1 : 2000 - 0 + 2000 * (j + 1 - 1) = 2000 * (j + 1) := by omega
    have e2 : 0 + (2000 - 0) + 2000 * (j + 1 - 1) = 2000 * (j + 1) := by omega
    simp only [e1, e2]
    simp

/-- The number of batches of `BuildPayload` on bookmarks that all resolve. -/
theorem BuildPayload_length (env : Env) (idx : ContentIndex) (bs : List Bookmark)
    (h : ∀ b ∈ bs, badTimestamp b = false) :
    (BuildPayload env bs idx).1.length = max 1 ((bs.length + 1999) / 2000) := by
  have hlt : max 1 ((bs.length + 1999) / 2000) - 1 < (BuildPayload env bs idx).1.length := by
    have h1 := BuildPayload_batch env idx bs h (max 1 ((bs.length + 1999) / 2000) - 1)
    rw [if_pos (by omega)] at h1
    by_contra hcon
    rw [List.getElem?_eq_none (by omega)] at h1
    cases h1
  have hle : (BuildPayload env bs idx).1.length ≤ max 1 ((bs.length + 1999) / 2000) := by
    have h1 := BuildPayload_batch env idx bs h (max 1 ((bs.length + 1999) / 2000))
    rw [if_neg (by omega)] at h1
    exact List.getElem?_eq_none_iff.mp h1
  omega

theorem digitVal_le (c : Char) (h : isDigit c = true) : digitVal c ≤ 9 := by
  simp [isDigit] at h
  simp only [digitVal]
  omega

theorem digitChar_digitVal (c : Char) (h : isDigit c = true) : digitChar (digitVal c) = c := by
  simp [isDigit] at h
  have : 48 + (c.toNat - 48) = c.toNat := by omega
  simp [digitChar, digitVal, this]

theorem appendInt_two (a b : Char) (ha : isDigit a = true) (hb : isDigit b = true) :
    appendInt ((digitVal a * 10 + digitVal b : Nat) : Int) 2 = [a, b] := by
  have h1 := digitVal_le a ha
  have h2 := digitVal_le b hb
  have e1 : (digitVal a * 10 + digitVal b) / 10 = digitVal a := by omega
  have e2 : (digitVal a * 10 + digitVal b) % 10 = digitVal b := by omega
  have hlt : digitVal a * 10 + digitVal b < 100 := by omega
  have hneg : ¬ (((digitVal a * 10 + digitVal b : Nat) : Int) < 0) := by omega
  simp only [appendInt, Int.natAbs_ofNat, hlt, hneg, if_false, and_self, if_true, e1, e2,
    digitChar_digitVal a ha, digitChar_digitVal b hb, List.nil_append]

theorem appendInt_four (a b c d : Char) (ha : isDigit a = true) (hb : isDigit b = true)
    (hc : isDigit c = true) (hd : isDigit d = true) :
    appendInt ((digitVal a * 1000 + digitVal b * 100 + digitVal c * 10 + digitVal d : Nat) : Int) 4
      = [a, b, c, d] := by
  have h1 := digitVal_le a ha
  have h2 := digitVal_le b hb
  have h3 := digitVal_le c hc
  have h4 := digitVal_le d hd
  generalize hu : digitVal a * 1000 + digitVal b * 100 + digitVal c * 10 + digitVal d = u
  have e1 : u / 100 / 10 = digitVal a := by omega
  have e2 : u / 100 % 10 = digitVal b := by omega
  have e3 : u % 100 / 10 = digitVal c := by omega
  have e4 : u % 100 % 10 = digitVal d := by omega
  have hlt : u < 10000 := by omega
  have hneg : ¬ ((u : Int) < 0) := by omega
  have h42 : ¬ (4 = 2) := by decide
  simp only [appendInt, Int.natAbs_ofNat, hlt, hneg, if_false, and_true, if_true, e1, e2, e3, e4,
    digitChar_digitVal a ha, digitChar_digitVal b hb, digitChar_digitVal c hc,
    digitChar_digitVal d hd, List.nil_append, h42, false_and]

theorem shape_digit {ts s : Str} (h : matchesShape ('d' :: ts) s = true) :
    ∃ c cs, s = c :: cs ∧ isDigit c = true ∧ matchesShape ts cs = true := by
  cases s with
  | nil => simp [matchesShape] at h
  | cons c cs =>
    simp [matchesShape] at h
    exact ⟨c, cs, rfl, h.1, h.2⟩

theorem shape_lit {t : Char} {ts s : Str} (ht : t ≠ 'd') (h : matchesShape (t :: ts) s = true) :
    ∃ cs, s = t :: cs ∧ matchesShape ts cs = true := by
  cases s with
  | nil => simp [matchesShape] at h
  | cons c cs =>
    simp [matchesShape, ht] at h
    exact ⟨cs, by rw [h.1], h.2⟩

theorem shape_nil {s : Str} (h : matchesShape [] s = true) : s = [] := by
  cases s with
  | nil => rfl
  | cons c cs => simp [matchesShape] at h

/-- The date and time elements on a value that is written as they ask. -/
theorem parseDateTime_shape (y1 y2 y3 y4 m1 m2 d1 d2 h1 h2 n1 n2 s1 s2 : Char) (v : Str)
    (hy1 : isDigit y1 = true) (hy2 : isDigit y2 = true) (hy3 : isDigit y3 = true)
    (hy4 : isDigit y4 = true) (hm1 : isDigit m1 = true) (hm2 : isDigit m2 = true)
    (hd1 : isDigit d1 = true) (hd2 : isDigit d2 = true) (hh1 : isDigit h1 = true)
    (hh2 : isDigit h2 = true) (hn1 : isDigit n1 = true) (hn2 : isDigit n2 = true)
    (hs1 : isDigit s1 = true) (hs2 : isDigit s2 = true) (t : Time) (w : Str)
    (hp : parseDateTime (y1 :: y2 :: y3 :: y4 :: '-' :: m1 :: m2 :: '-' :: d1 :: d2 :: 'T' ::
        h1 :: h2 :: ':' :: n1 :: n2 :: ':' :: s1 :: s2 :: v) = some (t, w)) :
    w = v ∧ formatTime t =
      [y1, y2, y3, y4, '-', m1, m2, '-', d1, d2, 'T', h1, h2, ':', n1, n2, ':', s1, s2] ++
        "+00:00".toList := by
  simp only [parseDateTime, getYear, getnum, skipChar, hy1, hy2, hy3, hy4, hm1, hm2, hd1, hd2,
    hh1, hh2, hn1, hn2, hs1, hs2, Bool.and_self, if_true, Option.bind_eq_bind, Option.some_bind,
    Bool.not_true, Bool.false_eq_true, if_false, Option.pure_def, Option.none_bind] at hp
  split at hp
  · cases hp
  split at hp
  · cases hp
  split at hp
  · cases hp
  split at hp
  · cases hp
  split at hp
  · cases hp
  simp only [Option.some.injEq, Prod.mk.injEq] at hp
  obtain ⟨ht, hw⟩ := hp
  subst ht
  refine ⟨hw.symm, ?_⟩
  have hz : formatZone 0 = "+00:00".toList := by decide
  simp only [formatTime, appendInt_four y1 y2 y3 y4 hy1 hy2 hy3 hy4, appendInt_two m1 m2 hm1 hm2,
    appendInt_two d1 d2 hd1 hd2, appendInt_two h1 h2 hh1 hh2, appendInt_two n1 n2 hn1 hn2,
    appendInt_two s1 s2 hs1 hs2, hz]
  simp

theorem formatTime_ne_nil (t : Time) : formatTime t ≠ [] := by
  simp [formatTime]

/-- A creation timestamp written as its layout asks: if it parses, the result prints
as its first 19 characters followed by `+00:00`. -/
theorem parseCreated_shape (s : Str) (t : Time) (hs : shapeCreated s = true)
    (hp : parseCreated s = .ok t) : formatTime t = s.take 19 ++ "+00:00".toList := by
  unfold shapeCreated at hs
  obtain ⟨y1, r, rfl, hy1, hs⟩ := shape_digit hs
  obtain ⟨y2, r, rfl, hy2, hs⟩ := shape_digit hs
  obtain ⟨y3, r, rfl, hy3, hs⟩ := shape_digit hs
  obtain ⟨y4, r, rfl, hy4, hs⟩ := shape_digit hs
  obtain ⟨r, rfl, hs⟩ := shape_lit (by decide) hs
  obtain ⟨m1, r, rfl, hm1, hs⟩ := shape_digit hs
  obtain ⟨m2, r, rfl, hm2, hs⟩ := shape_digit hs
  obtain ⟨r, rfl, hs⟩ := shape_lit (by decide) hs
  obtain ⟨d1, r, rfl, hd1, hs⟩ := shape_digit hs
  obtain ⟨d2, r, rfl, hd2, hs⟩ := shape_digit hs
  obtain ⟨r, rfl, hs⟩ := shape_lit (by decide) hs
  obtain ⟨h1, r, rfl, hh1, hs⟩ := shape_digit hs
  obtain ⟨h2, r, rfl, hh2, hs⟩ := shape_digit hs
  obtain ⟨r, rfl, hs⟩ := shape_lit (by decide) hs
  obtain ⟨n1, r, rfl, hn1, hs⟩ := shape_digit hs
  obtain ⟨n2, r, rfl, hn2, hs⟩ := shape_digit hs
  obtain ⟨r, rfl, hs⟩ := shape_lit (by decide) hs
  obtain ⟨s1, r, rfl, hs1, hs⟩ := shape_digit hs
  obtain ⟨s2, r, rfl, hs2, hs⟩ := shape_digit hs
  unfold parseCreated at hp
  split at hp
  · cases hp
  · rename_i t2 w hpd
    have := parseDateTime_shape y1 y2 y3 y4 m1 m2 d1 d2 h1 h2 n1 n2 s1 s2 r hy1 hy2 hy3 hy4
      hm1 hm2 hd1 hd2 hh1 hh2 hn1 hn2 hs1 hs2 t2 w hpd
    split at hp
    · cases hp
      simpa using this.2
    · cases hp

/-- A modification timestamp written as its layout asks: if it parses, the result
prints as its first 19 characters followed by `+00:00`. -/
theorem parseModified_shape (s : Str) (t : Time) (hs : shapeModified s = true)
    (hp : parseModified s = .ok t) : formatTime t = s.take 19 ++ "+00:00".toList := by
  unfold shapeModified at hs
  obtain ⟨y1, r, rfl, hy1, hs⟩ := shape_digit hs
  obtain ⟨y2, r, rfl, hy2, hs⟩ := shape_digit hs
  obtain ⟨y3, r, rfl, hy3, hs⟩ := shape_digit hs
  obtain ⟨y4, r, rfl, hy4, hs⟩ := shape_digit hs
  obtain ⟨r, rfl, hs⟩ := shape_lit (by decide) hs
  obtain ⟨m1, r, rfl, hm1, hs⟩ := shape_digit hs
  obtain ⟨m2, r, rfl, hm2, hs⟩ := shape_digit hs
  obtain ⟨r, rfl, hs⟩ := shape_lit (by decide) hs
  obtain ⟨d1, r, rfl, hd1, hs⟩ := shape_digit hs
  obtain ⟨d2, r, rfl, hd2, hs⟩ := shape_digit hs
  obtain ⟨r, rfl, hs⟩ := shape_lit (by decide) hs
  obtain ⟨h1, r, rfl, hh1, hs⟩ := shape_digit hs
  obtain ⟨h2, r, rfl, hh2, hs⟩ := shape_digit hs
  obtain ⟨r, rfl, hs⟩ := shape_lit (by decide) hs
  obtain ⟨n1, r, rfl, hn1, hs⟩ := shape_digit hs
  obtain ⟨n2, r, rfl, hn2, hs⟩ := shape_digit hs
  obtain ⟨r, rfl, hs⟩ := shape_lit (by decide) hs
  obtain ⟨s1, r, rfl, hs1, hs⟩ := shape_digit hs
  obtain ⟨s2, r, rfl, hs2, hs⟩ := shape_digit hs
  unfold parseModified at hp
  split at hp
  · cases hp
  · rename_i t2 w hpd
    have := parseDateTime_shape y1 y2 y3 y4 m1 m2 d1 d2 h1 h2 n1 n2 s1 s2 r hy1 hy2 hy3 hy4
      hm1 hm2 hd1 hd2 hh1 hh2 hn1 hn2 hs1 hs2 t2 w hpd
    split at hp
    · cases hp
      simpa using this.2
    · cases hp

theorem isDigit_not_sign (c : Char) (h : isDigit c = true) : c ≠ '+' ∧ c ≠ '-' := by
  simp [isDigit] at h
  constructor <;> (intro hc; subst hc; simp at h)

/-- The date and time elements accept a value written as they ask whose fields name a
day of the calendar and a time of day. -/
theorem parseDateTime_valid (y1 y2 y3 y4 m1 m2 d1 d2 h1 h2 n1 n2 s1 s2 : Char) (v : Str)
    (hy1 : isDigit y1 = true) (hy2 : isDigit y2 = true) (hy3 : isDigit y3 = true)
    (hy4 : isDigit y4 = true) (hm1 : isDigit m1 = true) (hm2 : isDigit m2 = true)
    (hd1 : isDigit d1 = true) (hd2 : isDigit d2 = true) (hh1 : isDigit h1 = true)
    (hh2 : isDigit h2 = true) (hn1 : isDigit n1 = true) (hn2 : isDigit n2 = true)
    (hs1 : isDigit s1 = true) (hs2 : isDigit s2 = true)
    (hcal : calendarOK (y1 :: y2 :: y3 :: y4 :: '-' :: m1 :: m2 :: '-' :: d1 :: d2 :: 'T' ::
        h1 :: h2 :: ':' :: n1 :: n2 :: ':' :: s1 :: s2 :: v) = true) :
    ∃ t, parseDateTime (y1 :: y2 :: y3 :: y4 :: '-' :: m1 :: m2 :: '-' :: d1 :: d2 :: 'T' ::
        h1 :: h2 :: ':' :: n1 :: n2 :: ':' :: s1 :: s2 :: v) = some (t, v) := by
  simp only [calendarOK, twoDigits, List.getD_cons_succ, List.getD_cons_zero, Bool.and_eq_true,
    decide_eq_true_eq, Nat.zero_add, Nat.reduceAdd] at hcal
  obtain ⟨⟨⟨⟨⟨⟨c1, c2⟩, c3⟩, c4⟩, c5⟩, c6⟩, c7⟩ := hcal
  have ey : (digitVal y1 * 10 + digitVal y2) * 100 + (digitVal y3 * 10 + digitVal y4) =
      digitVal y1 * 1000 + digitVal y2 * 100 + digitVal y3 * 10 + digitVal y4 := by omega
  rw [ey] at c4
  simp only [parseDateTime, getYear, getnum, skipChar, hy1, hy2, hy3, hy4, hm1, hm2, hd1, hd2,
    hh1, hh2, hn1, hn2, hs1, hs2, Bool.and_self, if_true, Option.bind_eq_bind, Option.some_bind,
    Bool.not_true, Bool.false_eq_true, if_false, Option.pure_def, Option.none_bind]
  rw [if_neg (by omega), if_neg (by omega), if_neg (by omega), if_neg (by omega),
    if_neg (by omega)]
  exact ⟨_, rfl⟩

/-- A creation timestamp written as its layout asks, with fields that name a day of
the calendar and a time of day, parses. -/
theorem parseCreated_valid (s : Str) (hs : shapeCreated s = true) (hcal : calendarOK s = true) :
    parseFails (parseCreated s) = false := by
  unfold shapeCreated at hs
  obtain ⟨y1, r, rfl, hy1, hs⟩ := shape_digit hs
  obtain ⟨y2, r, rfl, hy2, hs⟩ := shape_digit hs
  obtain ⟨y3, r, rfl, hy3, hs⟩ := shape_digit hs
  obtain ⟨y4, r, rfl, hy4, hs⟩ := shape_digit hs
  obtain ⟨r, rfl, hs⟩ := shape_lit (by decide) hs
  obtain ⟨m1, r, rfl, hm1, hs⟩ := shape_digit hs
  obtain ⟨m2, r, rfl, hm2, hs⟩ := shape_digit hs
  obtain ⟨r, rfl, hs⟩ := shape_lit (by decide) hs
  obtain ⟨d1, r, rfl, hd1, hs⟩ := shape_digit hs
  obtain ⟨d2, r, rfl, hd2, hs⟩ := shape_digit hs
  obtain ⟨r, rfl, hs⟩ := shape_lit (by decide) hs
  obtain ⟨h1, r, rfl, hh1, hs⟩ := shape_digit hs
  obtain ⟨h2, r, rfl, hh2, hs⟩ := shape_digit hs
  obtain ⟨r, rfl, hs⟩ := shape_lit (by decide) hs
  obtain ⟨n1, r, rfl, hn1, hs⟩ := shape_digit hs
  obtain ⟨n2, r, rfl, hn2, hs⟩ := shape_digit hs
  obtain ⟨r, rfl, hs⟩ := shape_lit (by decide) hs
  obtain ⟨s1, r, rfl, hs1, hs⟩ := shape_digit hs
  obtain ⟨s2, r, rfl, hs2, hs⟩ := shape_digit hs
  obtain ⟨r, rfl, hs⟩ := shape_lit (by decide) hs
  obtain ⟨f1, r, rfl, hf1, hs⟩ := shape_digit hs
  obtain ⟨f2, r, rfl, hf2, hs⟩ := shape_digit hs
  obtain ⟨f3, r, rfl, hf3, hs⟩ := shape_digit hs
  have hr := shape_nil hs
  subst hr
  obtain ⟨t, ht⟩ := parseDateTime_valid y1 y2 y3 y4 m1 m2 d1 d2 h1 h2 n1 n2 s1 s2 _ hy1 hy2 hy3
    hy4 hm1 hm2 hd1 hd2 hh1 hh2 hn1 hn2 hs1 hs2 hcal
  have hsign := isDigit_not_sign f1 hf1
  simp [parseCreated, ht, fracSecond3, commaOrPeriod, hsign.1, hsign.2, hf1, hf2, hf3, parseFails]

/-- A modification timestamp written as its layout asks, with fields that name a day
of the calendar and a time of day, parses. -/
theorem parseModified_valid (s : Str) (hs : shapeModified s = true)
    (hcal : calendarOK s = true) : parseFails (parseModified s) = false := by
  unfold shapeModified at hs
  obtain ⟨y1, r, rfl, hy1, hs⟩ := shape_digit hs
  obtain ⟨y2, r, rfl, hy2, hs⟩ := shape_digit hs
  obtain ⟨y3, r, rfl, hy3, hs⟩ := shape_digit hs
  obtain ⟨y4, r, rfl, hy4, hs⟩ := shape_digit hs
  obtain ⟨r, rfl, hs⟩ := shape_lit (by decide) hs
  obtain ⟨m1, r, rfl, hm1, hs⟩ := shape_digit hs
  obtain ⟨m2, r, rfl, hm2, hs⟩ := shape_digit hs
  obtain ⟨r, rfl, hs⟩ := shape_lit (by decide) hs
  obtain ⟨d1, r, rfl, hd1, hs⟩ := shape_digit hs
  obtain ⟨d2, r, rfl, hd2, hs⟩ := shape_digit hs
  obtain ⟨r, rfl, hs⟩ := shape_lit (by decide) hs
  obtain ⟨h1, r, rfl, hh1, hs⟩ := shape_digit hs
  obtain ⟨h2, r, rfl, hh2, hs⟩ := shape_digit hs
  obtain ⟨r, rfl, hs⟩ := shape_lit (by decide) hs
  obtain ⟨n1, r, rfl, hn1, hs⟩ := shape_digit hs
  obtain ⟨n2, r, rfl, hn2, hs⟩ := shape_digit hs
  obtain ⟨r, rfl, hs⟩ := shape_lit (by decide) hs
  obtain ⟨s1, r, rfl, hs1, hs⟩ := shape_digit hs
  obtain ⟨s2, r, rfl, hs2, hs⟩ := shape_digit hs
  obtain ⟨r, rfl, hs⟩ := shape_lit (by decide) hs
  have hr := shape_nil hs
  subst hr
  obtain ⟨t, ht⟩ := parseDateTime_valid y1 y2 y3 y4 m1 m2 d1 d2 h1 h2 n1 n2 s1 s2 _ hy1 hy2 hy3
    hy4 hm1 hm2 hd1 hd2 hh1 hh2 hn1 hn2 hs1 hs2 hcal
  simp [parseModified, ht, skipFraction, skipChar, parseFails]

/-- What a run emits for one bookmark, in any context of bookmarks that resolve. -/
theorem emitsInContext_producedBy (env : Env) (idx : ContentIndex) (pre : List Bookmark)
    (b : Bookmark) (post : List Bookmark)
    (hres : ∀ x ∈ pre ++ b :: post, badTimestamp x = false) :
    EmitsInContext env idx pre b post (producedBy env idx pre.length b) := by
  have hpre : ∀ x ∈ pre, badTimestamp x = false :=
    fun x hx => hres x (List.mem_append_left _ hx)
  have hpost : ∀ x ∈ post, badTimestamp x = false :=
    fun x hx => hres x (List.mem_append_right _ (List.mem_cons_of_mem _ hx))
  have h1 := BuildPayload_ok env idx (pre ++ b :: post) hres
  have h2 := BuildPayload_ok env idx pre hpre
  have h3 := BuildPayload_ok (env.shift (pre.length + 1)) idx post hpost
  refine ⟨h1.1, ?_⟩
  rw [h1.2, h2.2, h3.2, producedFrom_append, producedFrom_shift]
  simp [producedFrom, Nat.add_comm]

/-- The fields that the highlights of one bookmark share. -/
theorem producedBy_fields (env : Env) (idx : ContentIndex) (i : Nat) (b : Bookmark) (c : Str)
    (hc : resolveCreatedAt (env.now i) b = .ok c) (h : Highlight)
    (hh : h ∈ producedBy env idx i b) :
    h.URL = b.VolumeID ∧
    h.Title = resolveTitle env (idx.get b.VolumeID) b ++ " - ".toList ++
      (idx.get b.VolumeID).Attribution ∧
    h.Created = c ∧ h.Tags = extractTags b.Annotation ∧
    h.Author = (idx.get b.VolumeID).Attribution := by
  rw [producedBy_eq env idx i b c hc] at hh
  unfold entryHighlights at hh
  by_cases hskip : b.Annotation = [] ∧ contentBody b = []
  · simp [hskip] at hh
  · simp only [hskip, if_false, List.mem_map] at hh
    obtain ⟨chunk, _, rfl⟩ := hh
    simp

theorem splitChunks_short (fuel : Nat) (text : Str) (L : Nat) (hne : text ≠ [])
    (hlen : text.length ≤ L) : splitChunks (fuel + 1) text L = [text] := by
  have h1 : text.take L = text := List.take_of_length_le hlen
  have h2 : text.drop L = [] := List.drop_of_length_le hlen
  cases fuel with
  | zero => simp [splitChunks, hne, h1]
  | succ n => simp [splitChunks, hne, h1, h2]

theorem splitHighlight_short (text : Str) (L : Nat) (hne : text ≠ []) (hlen : text.length ≤ L) :
    splitHighlight text L = [text] := by
  unfold splitHighlight
  cases text with
  | nil => exact absurd rfl hne
  | cons c cs => exact splitChunks_short _ _ _ (by simp) hlen

theorem producedBy_skip (env : Env) (idx : ContentIndex) (i : Nat) (b : Bookmark)
    (hres : badTimestamp b = false) (hann : b.Annotation = [])
    (htext : NormaliseText b.Text = []) : producedBy env idx i b = [] := by
  obtain ⟨c, hc⟩ := resolve_ok_of_not_bad (env.now i) b hres
  rw [producedBy_eq env idx i b c hc]
  simp [entryHighlights, contentBody, hann, htext]

theorem splitOnSpace_ne_nil (s : Str) : splitOnSpace s ≠ [] := by
  cases s with
  | nil => simp [splitOnSpace]
  | cons c cs =>
    unfold splitOnSpace
    split
    · simp
    · split <;> simp

theorem joinWithSpaces_cons_cons (c : Char) (t : Str) (ts : List Str) :
    joinWithSpaces ((c :: t) :: ts) = c :: joinWithSpaces (t :: ts) := by
  cases ts <;> simp [joinWithSpaces]

theorem joinWithSpaces_splitOnSpace (s : Str) : joinWithSpaces (splitOnSpace s) = s := by
  induction s with
  | nil => simp [splitOnSpace, joinWithSpaces]
  | cons c cs ih =>
    unfold splitOnSpace
    split
    · rename_i hc
      cases hsp : splitOnSpace cs with
      | nil => exact absurd hsp (splitOnSpace_ne_nil cs)
      | cons t ts =>
        rw [hsp] at ih
        simp [joinWithSpaces, ih, hc]
    · split
      · rename_i hsp
        exact absurd hsp (splitOnSpace_ne_nil cs)
      · rename_i t ts hsp
        rw [hsp] at ih
        rw [joinWithSpaces_cons_cons, ih]

theorem splitOnSpace_no_space (s : Str) : ∀ t ∈ splitOnSpace s, ' ' ∉ t := by
  induction s with
  | nil => simp [splitOnSpace]
  | cons c cs ih =>
    unfold splitOnSpace
    split
    · intro t ht
      rcases List.mem_cons.mp ht with rfl | ht
      · simp
      · exact ih t ht
    · rename_i hc
      split
      · intro t ht
        simp at ht
        subst ht
        simpa using fun h => hc h.symm
      · rename_i t ts hsp
        rw [hsp] at ih
        intro x hx
        rcases List.mem_cons.mp hx with rfl | hx
        · intro hmem
          rcases List.mem_cons.mp hmem with h1 | h1
          · exact hc h1.symm
          · exact ih t (List.mem_cons_self _ _) h1
        · exact ih x (List.mem_cons_of_mem _ hx)

theorem dotTag_eq (t : Str) :
    dotTag t = if startsWithDot t then some (dropLeadingDot t) else none := by
  cases t with
  | nil => simp [dotTag, startsWithDot]
  | cons c cs =>
    by_cases hc : c = '.'
    · subst hc
      simp [dotTag, startsWithDot, dropLeadingDot]
    · simp only [startsWithDot, dropLeadingDot, hc, decide_False, Bool.false_eq_true, if_false]
      unfold dotTag
      split
      · rename_i heq
        cases heq
        exact absurd rfl hc
      · rfl

theorem foldl_tags (l : List Str) (acc : List Str) :
    l.foldl (fun tags possibleTag =>
      if startsWithDot possibleTag then tags ++ [dropLeadingDot possibleTag] else tags) acc
      = acc ++ l.filterMap dotTag := by
  induction l generalizing acc with
  | nil => simp
  | cons t ts ih =>
    simp only [List.foldl_cons, ih, List.filterMap_cons, dotTag_eq]
    by_cases ht : startsWithDot t = true <;> simp [ht]

theorem extractTags_eq (s : Str) : extractTags s = (splitOnSpace s).filterMap dotTag := by
  simp [extractTags, foldl_tags]

/-- The chunks of a text, one by one, for a positive chunk length and enough fuel. -/
theorem splitChunks_getElem (L : Nat) (hL : 0 < L) (fuel : Nat) (text : Str)
    (hfuel : text.length ≤ fuel) (i : Nat) :
    (splitChunks fuel text L)[i]? =
      if i * L < text.length then some ((text.drop (i * L)).take L) else none := by
  induction fuel generalizing text i with
  | zero =>
    have : text = [] := List.length_eq_zero.mp (by omega)
    subst this
    simp [splitChunks]
  | succ n ih =>
    unfold splitChunks
    by_cases hne : text = []
    · subst hne
      simp
    · simp only [hne, if_false]
      have hpos : 0 < text.length := List.length_pos.mpr hne
      cases i with
      | zero => simp [hpos]
      | succ j =>
        have hlen : (text.drop L).length ≤ n := by
          simp only [List.length_drop]
          omega
        rw [List.getElem?_cons_succ, ih (text.drop L) hlen j]
        have e1 : (j + 1) * L = L + j * L := by rw [Nat.succ_mul, Nat.add_comm]
        simp only [List.length_drop, List.drop_drop, e1]
        by_cases hc : j * L < text.length - L
        · rw [if_pos hc, if_pos (by omega)]
        · rw [if_neg hc, if_neg (by omega)]

theorem splitChunks_flatten (L : Nat) (hL : 0 < L) (fuel : Nat) (text : Str)
    (hfuel : text.length ≤ fuel) : (splitChunks fuel text L).flatten = text := by
  induction fuel generalizing text with
  | zero =>
    have : text = [] := List.length_eq_zero.mp (by omega)
    subst this
    simp [splitChunks]
  | succ n ih =>
    unfold splitChunks
    by_cases hne : text = []
    · subst hne
      simp
    · simp only [hne, if_false, List.flatten_cons]
      have hpos : 0 < text.length := List.length_pos.mpr hne
      have hlen : (text.drop L).length ≤ n := by
        simp only [List.length_drop]
        omega
      rw [ih (text.drop L) hlen, List.take_append_drop]

theorem splitHighlight_getElem (text : Str) (L : Nat) (hL : 0 < L) (i : Nat) :
    (splitHighlight text L)[i]? =
      if i * L < text.length then some ((text.drop (i * L)).take L) else none :=
  splitChunks_getElem L hL _ text (Nat.le_refl _) i

theorem splitHighlight_flatten (text : Str) (L : Nat) (hL : 0 < L) :
    (splitHighlight text L).flatten = text :=
  splitChunks_flatten L hL _ text (Nat.le_refl _)

/-- The contents of the highlights of a bookmark with text are the chunks of the
normalised text. -/
theorem producedBy_contents (env : Env) (idx : ContentIndex) (i : Nat) (b : Bookmark)
    (hres : badTimestamp b = false) (htext : NormaliseText b.Text ≠ []) :
    (producedBy env idx i b).map (fun h => h.Content) =
      splitHighlight (NormaliseText b.Text) env.MaxHighlightLen := by
  obtain ⟨c, hc⟩ := resolve_ok_of_not_bad (env.now i) b hres
  rw [producedBy_eq env idx i b c hc]
  have hbody : contentBody b = NormaliseText b.Text := by simp [contentBody, htext]
  simp [entryHighlights, hbody, htext, Function.comp_def]

theorem foldl_highlights (payloads : List Response) (acc : List Highlight) :
    payloads.foldl (fun acc payload => acc ++ payload.Highlights) acc =
      acc ++ allHighlights payloads := by
  induction payloads generalizing acc with
  | nil => simp [allHighlights]
  | cons p ps ih => simp [List.foldl_cons, ih, allHighlights]

theorem allHighlights_eq_flatten (payloads : List Response) :
    allHighlights payloads = (payloads.map (fun p => p.Highlights)).flatten := by
  induction payloads with
  | nil => rfl
  | cons p ps ih => simp [allHighlights, ih]

theorem allHighlights_length (payloads : List Response) :
    (allHighlights payloads).length = (payloads.map (fun p => p.Highlights.length)).sum := by
  induction payloads with
  | nil => rfl
  | cons p ps ih => simp [allHighlights, ih]

theorem allHighlights_eq_nil_iff (payloads : List Response) :
    allHighlights payloads = [] ↔ ∀ p ∈ payloads, p.Highlights = [] := by
  induction payloads with
  | nil => simp [allHighlights]
  | cons p ps ih => simp [allHighlights, ih]

/-- What `strings.TrimSpace` removes: white space in front and behind, up to a first and
a last character that are not white space. -/
theorem TrimSpace_spec (s : Str) :
    ∃ l r : Str, s = l ++ TrimSpace s ++ r ∧
      (∀ c ∈ l, isSpace c = true) ∧ (∀ c ∈ r, isSpace c = true) ∧
      (∀ c, (TrimSpace s).head? = some c → isSpace c = false) ∧
      (∀ c, (TrimSpace s).getLast? = some c → isSpace c = false) := by
  obtain ⟨r, hr, hm⟩ : ∃ r : Str, (∀ c ∈ r, isSpace c = true) ∧
      s.dropWhile isSpace = TrimSpace s ++ r := by
    refine ⟨((s.dropWhile isSpace).reverse.takeWhile isSpace).reverse, ?_, ?_⟩
    · intro c hc
      exact List.mem_takeWhile_imp (List.mem_reverse.mp hc)
    · have := List.takeWhile_append_dropWhile isSpace (s.dropWhile isSpace).reverse
      have h2 := congrArg List.reverse this
      simp only [List.reverse_append, List.reverse_reverse] at h2
      exact h2.symm
  have hlast : ∀ c, (TrimSpace s).getLast? = some c → isSpace c = false := by
    intro c hc
    simp only [TrimSpace, List.getLast?_reverse] at hc
    cases hd : (s.dropWhile isSpace).reverse.dropWhile isSpace with
    | nil => rw [hd] at hc; simp at hc
    | cons x xs =>
      rw [hd] at hc
      simp at hc
      subst hc
      have := List.head_dropWhile_not isSpace (s.dropWhile isSpace).reverse (by rw [hd]; simp)
      simp only [hd, List.head_cons] at this
      simpa using this
  refine ⟨s.takeWhile isSpace, r, ?_, ?_, hr, ?_, hlast⟩
  · rw [List.append_assoc, ← hm, List.takeWhile_append_dropWhile]
  · intro c hc
    exact (List.mem_takeWhile_imp hc)
  · intro c hc
    cases ht : TrimSpace s with
    | nil => rw [ht] at hc; simp at hc
    | cons x xs =>
      rw [ht] at hc hm
      simp only [List.head?_cons, Option.some.injEq] at hc
      subst hc
      have := List.head_dropWhile_not isSpace s (by rw [hm]; simp)
      simp only [hm, List.cons_append, List.head_cons] at this
      simpa using this

theorem filterMap_dotTag_filter (l : List Str) :
    l.filterMap dotTag = (l.filter startsWithDot).filterMap dotTag := by
  induction l with
  | nil => rfl
  | cons t ts ih =>
    by_cases ht : startsWithDot t = true
    · simp [List.filter_cons, List.filterMap_cons, ht, ih]
    · simp [List.filter_cons, List.filterMap_cons, ht, ih, dotTag_eq]

theorem extractTags_of_dotTokens (a1 a2 : Str) (h : dotTokens a1 = dotTokens a2) :
    extractTags a1 = extractTags a2 := by
  unfold dotTokens at h
  rw [extractTags_eq, extractTags_eq, filterMap_dotTag_filter, h, ← filterMap_dotTag_filter]

theorem sameEmptinessAndTags_of_variant (b1 b2 : Bookmark) (h : annotationVariant b1 b2) :
    sameEmptinessAndTags b1 b2 := by
  rcases h with rfl | ⟨h1, h2, h3, h4, h5, h6, h7⟩
  · exact ⟨rfl, rfl, rfl, rfl, Iff.rfl, rfl⟩
  · exact ⟨h1, h2, h3, h4, ⟨fun h => absurd h h5, fun h => absurd h h6⟩,
      extractTags_of_dotTokens _ _ h7⟩

theorem resolveCreatedAt_congr (now : Time) (b1 b2 : Bookmark)
    (h : sameEmptinessAndTags b1 b2) : resolveCreatedAt now b1 = resolveCreatedAt now b2 := by
  obtain ⟨_, _, h3, h4, _, _⟩ := h
  simp [resolveCreatedAt, h3, h4]

theorem entryHighlights_congr (env : Env) (idx : ContentIndex) (b1 b2 : Bookmark) (c : Str)
    (h : sameEmptinessAndTags b1 b2) :
    entryHighlights env idx b1 c = entryHighlights env idx b2 c := by
  obtain ⟨h1, h2, _, _, h5, h6⟩ := h
  have hbody : contentBody b1 = contentBody b2 := by
    simp only [contentBody, h2, ne_eq, h5]
  have htitle : ∀ src : Content, resolveTitle env src b1 = resolveTitle env src b2 := by
    intro src
    simp [resolveTitle, h1]
  simp only [entryHighlights, h1, hbody, h5, h6, htitle]

theorem buildLoop_congr (env : Env) (idx : ContentIndex) (bs1 bs2 : List Bookmark)
    (h : List.Forall₂ sameEmptinessAndTags bs1 bs2) (count : Nat) (payloads : List Response)
    (cur : Response) :
    buildLoop env idx bs1 count payloads cur = buildLoop env idx bs2 count payloads cur := by
  induction h generalizing count payloads cur with
  | nil => rfl
  | cons hb _ ih =>
    simp only [buildLoop, resolveCreatedAt_congr _ _ _ hb]
    split
    · rfl
    · rw [entryHighlights_congr env idx _ _ _ hb]
      exact ih _ _ _

/-! ## The claims -/

/-- C1, as stated, fails: a bookmark whose creation timestamp does not parse makes
`BuildPayload` return no batch at all. -/
theorem C1_counterexample_unparsable_timestamp :
    ¬ 1 ≤ (BuildPayload sampleEnv
      [⟨sampleID, "Hello World".toList, [], "yesterday".toList, []⟩] sampleIndex).1.length := by
  decide

/-- C1, amended. Whenever `BuildPayload` returns no error, it returns at least one
batch and the last batch is the open one: it holds what the bookmarks after the last
rollover produce, which is nothing when there is no bookmark. -/
theorem C1_final_batch_present (env : Env) (idx : ContentIndex) (bs : List Bookmark)
    (h : (BuildPayload env bs idx).2 = none) :
    1 ≤ (BuildPayload env bs idx).1.length ∧
    (BuildPayload env bs idx).1.getLast? =
      some ⟨producedFrom env idx (2000 * ((bs.length - 1) / 2000))
        (bs.drop (2000 * ((bs.length - 1) / 2000)))⟩ ∧
    BuildPayload env [] idx = ([⟨[]⟩], none) := by
  have hall := not_bad_of_no_error env idx bs h
  have hlen := BuildPayload_length env idx bs hall
  refine ⟨by omega, ?_, rfl⟩
  rw [List.getLast?_eq_getElem?, hlen]
  have hk : max 1 ((bs.length + 1999) / 2000) - 1 = (bs.length - 1) / 2000 := by omega
  rw [hk, BuildPayload_batch env idx bs hall, if_pos (by omega)]
  rw [List.take_of_length_le (by simp; omega)]

/-- The sample bookmark alone: one batch, which is the last one. -/
theorem C1_final_batch_present_witness :
    1 ≤ (BuildPayload sampleEnv [sampleBookmark] sampleIndex).1.length ∧
    (BuildPayload sampleEnv [sampleBookmark] sampleIndex).1.getLast? =
      some ⟨producedFrom sampleEnv sampleIndex (2000 * (([sampleBookmark].length - 1) / 2000))
        ([sampleBookmark].drop (2000 * (([sampleBookmark].length - 1) / 2000)))⟩ ∧
    BuildPayload sampleEnv [] sampleIndex = ([⟨[]⟩], none) :=
  C1_final_batch_present sampleEnv sampleIndex [sampleBookmark] (by decide)

/-- C2. On bookmarks whose timestamps all resolve `BuildPayload` returns no error and
`max 1 (ceil (n / 2000))` batches; batch `k` holds, in input order, what the bookmarks
of positions `2000 * k` up to `min n (2000 * (k + 1)) - 1` produce, whatever the number
of highlights of each; 4002 bookmarks give 3 batches, the second starting with
bookmark 2000 and the third with bookmark 4000. -/
theorem C2_batches_of_2000_bookmarks (env : Env) (idx : ContentIndex) (bs : List Bookmark)
    (h : ∀ b ∈ bs, badTimestamp b = false) :
    (BuildPayload env bs idx).2 = none ∧
    (BuildPayload env bs idx).1.length = max 1 ((bs.length + 1999) / 2000) ∧
    (∀ k, k < max 1 ((bs.length + 1999) / 2000) →
      (BuildPayload env bs idx).1[k]? =
        some ⟨producedFrom env idx (2000 * k) ((bs.drop (2000 * k)).take 2000)⟩) ∧
    (bs.length = 4002 →
      (BuildPayload env bs idx).1 =
        [⟨producedFrom env idx 0 (bs.take 2000)⟩,
         ⟨producedFrom env idx 2000 ((bs.drop 2000).take 2000)⟩,
         ⟨producedFrom env idx 4000 (bs.drop 4000)⟩]) := by
  refine ⟨(BuildPayload_ok env idx bs h).1, BuildPayload_length env idx bs h, ?_, ?_⟩
  · intro k hk
    rw [BuildPayload_batch env idx bs h k, if_pos (by omega)]
  · intro hn
    have hlen := BuildPayload_length env idx bs h
    have h0 := BuildPayload_batch env idx bs h 0
    have h1 := BuildPayload_batch env idx bs h 1
    have h2 := BuildPayload_batch env idx bs h 2
    rw [if_pos (by omega)] at h0 h1 h2
    have hd : (bs.drop 4000).take 2000 = bs.drop 4000 :=
      List.take_of_length_le (by simp; omega)
    simp only [Nat.mul_zero, Nat.mul_one, List.drop_zero, Nat.reduceMul, hd] at h0 h1 h2
    rw [hn] at hlen
    apply List.ext_getElem?
    intro i
    rcases i with _ | _ | _ | i
    · simpa using h0
    · simpa using h1
    · simpa using h2
    · rw [List.getElem?_eq_none (by simp at hlen ⊢; omega)]
      simp

/-- Two sample bookmarks: no error and one batch. -/
theorem C2_batches_of_2000_bookmarks_witness :
    (BuildPayload sampleEnv [sampleBookmark, sampleBookmark] sampleIndex).2 = none ∧
    (BuildPayload sampleEnv [sampleBookmark, sampleBookmark] sampleIndex).1.length = 1 :=
  let h := C2_batches_of_2000_bookmarks sampleEnv sampleIndex [sampleBookmark, sampleBookmark]
    (by decide)
  ⟨h.1, h.2.1⟩

/-- C3. `BuildPayload` returns an error exactly when some bookmark, wherever it stands
and whatever its text and annotation, has a non-empty creation timestamp that does not
parse or an empty creation timestamp with a non-empty modification timestamp that does
not parse; and with an error it returns no batch. -/
theorem C3_error_iff_unparsable_timestamp (env : Env) (idx : ContentIndex)
    (bs : List Bookmark) :
    ((BuildPayload env bs idx).2 ≠ none ↔
      ∃ b ∈ bs,
        (b.DateCreated ≠ [] ∧ parseFails (parseCreated b.DateCreated) = true) ∨
        (b.DateCreated = [] ∧ b.DateModified ≠ [] ∧
          parseFails (parseModified b.DateModified) = true)) ∧
    ((BuildPayload env bs idx).2 = none ∨ (BuildPayload env bs idx).1 = []) := by
  have hiff : ∀ b : Bookmark, badTimestamp b = true ↔
      ((b.DateCreated ≠ [] ∧ parseFails (parseCreated b.DateCreated) = true) ∨
        (b.DateCreated = [] ∧ b.DateModified ≠ [] ∧
          parseFails (parseModified b.DateModified) = true)) := by
    intro b
    simp [badTimestamp, and_assoc]
  by_cases hbad : ∃ b ∈ bs, badTimestamp b = true
  · obtain ⟨err, herr⟩ := buildLoop_error env idx bs hbad 0 [] ⟨[]⟩
    have hB : BuildPayload env bs idx = ([], some err) := herr
    obtain ⟨b, hb, hb2⟩ := hbad
    refine ⟨⟨fun _ => ⟨b, hb, (hiff b).mp hb2⟩, fun _ => by simp [hB]⟩, Or.inr (by simp [hB])⟩
  · have hall : ∀ b ∈ bs, badTimestamp b = false := by
      intro b hb
      cases hv : badTimestamp b with
      | false => rfl
      | true => exact absurd ⟨b, hb, hv⟩ hbad
    have hok := (BuildPayload_ok env idx bs hall).1
    refine ⟨⟨fun hne => absurd hok hne, ?_⟩, Or.inl hok⟩
    rintro ⟨b, hb, hcond⟩
    exact absurd ⟨b, hb, (hiff b).mpr hcond⟩ hbad

/-- C4. With every timestamp of the input resolving, a run emits for each bookmark the
highlights it produces, and their `Created` follows the fallback chain: a creation
timestamp written `YYYY-MM-DDTHH:MM:SS.fff` gives `YYYY-MM-DDTHH:MM:SS+00:00`, whatever
the modification timestamp; without creation timestamp a modification timestamp
written `YYYY-MM-DDTHH:MM:SSZ` gives `YYYY-MM-DDTHH:MM:SS+00:00`; with both empty it is
the formatted reading of the clock, which is not empty.  A timestamp so written whose
fields name a day of the calendar and a time of day does resolve, for a creation
timestamp whatever the modification timestamp is. -/
theorem C4_timestamp_fallback_chain (env : Env) (idx : ContentIndex) (pre : List Bookmark)
    (b : Bookmark) (post : List Bookmark)
    (hres : ∀ x ∈ pre ++ b :: post, badTimestamp x = false) :
    EmitsInContext env idx pre b post (producedBy env idx pre.length b) ∧
    (shapeCreated b.DateCreated = true → ∀ h ∈ producedBy env idx pre.length b,
      h.Created = b.DateCreated.take 19 ++ "+00:00".toList) ∧
    (b.DateCreated = [] → shapeModified b.DateModified = true →
      ∀ h ∈ producedBy env idx pre.length b,
        h.Created = b.DateModified.take 19 ++ "+00:00".toList) ∧
    (b.DateCreated = [] → b.DateModified = [] → ∀ h ∈ producedBy env idx pre.length b,
      h.Created = formatTime (env.now pre.length) ∧ h.Created ≠ []) ∧
    (∀ x : Bookmark, shapeCreated x.DateCreated = true → calendarOK x.DateCreated = true →
      badTimestamp x = false) ∧
    (∀ x : Bookmark, x.DateCreated = [] → shapeModified x.DateModified = true →
      calendarOK x.DateModified = true → badTimestamp x = false) := by
  have hb : badTimestamp b = false := hres b (by simp)
  obtain ⟨c, hc⟩ := resolve_ok_of_not_bad (env.now pre.length) b hb
  refine ⟨emitsInContext_producedBy env idx pre b post hres, ?_, ?_, ?_, ?_, ?_⟩
  · intro hshape h hh
    rw [(producedBy_fields env idx _ b c hc h hh).2.2.1]
    have hne : b.DateCreated ≠ [] := by
      intro he
      rw [he] at hshape
      simp [shapeCreated, matchesShape] at hshape
    simp only [resolveCreatedAt, hne, if_false] at hc
    split at hc
    · cases hc
    · rename_i t ht
      cases hc
      exact parseCreated_shape _ t hshape ht
  · intro hempty hshape h hh
    rw [(producedBy_fields env idx _ b c hc h hh).2.2.1]
    have hne : b.DateModified ≠ [] := by
      intro he
      rw [he] at hshape
      simp [shapeModified, matchesShape] at hshape
    simp only [resolveCreatedAt, hempty, hne, if_true, if_false] at hc
    split at hc
    · cases hc
    · rename_i t ht
      cases hc
      exact parseModified_shape _ t hshape ht
  · intro he1 he2 h hh
    rw [(producedBy_fields env idx _ b c hc h hh).2.2.1]
    simp only [resolveCreatedAt, he1, he2, if_true] at hc
    cases hc
    exact ⟨rfl, formatTime_ne_nil _⟩
  · intro x hshape hcal
    simp [badTimestamp, parseCreated_valid _ hshape hcal]
    intro he
    rw [he] at hshape
    simp [shapeCreated, matchesShape] at hshape
  · intro x he hshape hcal
    simp [badTimestamp, parseModified_valid _ hshape hcal, he]

/-- The three cases of the chain on the sample book: both `2006-01-02T15:04:05.000` and
`2006-01-02T15:04:05Z` give `2006-01-02T15:04:05+00:00`, and without timestamps the sample
clock gives `2026-11-01T12:00:00-05:30`. -/
theorem C4_timestamp_fallback_chain_witness :
    (∀ h ∈ producedBy sampleEnv sampleIndex 0 sampleBookmark,
      h.Created = "2006-01-02T15:04:05+00:00".toList) ∧
    (∀ h ∈ producedBy sampleEnv sampleIndex 0
        ⟨sampleID, "Hello World".toList, [], [], "2006-01-02T15:04:05Z".toList⟩,
      h.Created = "2006-01-02T15:04:05+00:00".toList) ∧
    (∀ h ∈ producedBy sampleEnv sampleIndex 0 ⟨sampleID, "Hello World".toList, [], [], []⟩,
      h.Created = "2026-11-01T12:00:00-05:30".toList ∧ h.Created ≠ []) :=
  ⟨(C4_timestamp_fallback_chain sampleEnv sampleIndex [] sampleBookmark [] (by decide)).2.1
      (by decide),
   (C4_timestamp_fallback_chain sampleEnv sampleIndex []
      ⟨sampleID, "Hello World".toList, [], [], "2006-01-02T15:04:05Z".toList⟩ []
      (by decide)).2.2.1 rfl (by decide),
   (C4_timestamp_fallback_chain sampleEnv sampleIndex []
      ⟨sampleID, "Hello World".toList, [], [], []⟩ [] (by decide)).2.2.2.1 rfl rfl⟩

/-- C5. With every timestamp of the input resolving, a bookmark with an empty
annotation and a text that is empty after normalisation adds no highlight: the run
goes on with the next bookmarks and returns no error; and such a bookmark alone gives
one batch with no highlights. -/
theorem C5_empty_bookmark_is_skipped (env : Env) (idx : ContentIndex) (pre : List Bookmark)
    (b : Bookmark) (post : List Bookmark)
    (hres : ∀ x ∈ pre ++ b :: post, badTimestamp x = false)
    (hann : b.Annotation = []) (htext : NormaliseText b.Text = []) :
    EmitsInContext env idx pre b post [] ∧
    BuildPayload env [b] idx = ([⟨[]⟩], none) := by
  have hb : badTimestamp b = false := hres b (by simp)
  have hp := producedBy_skip env idx pre.length b hb hann htext
  constructor
  · have := emitsInContext_producedBy env idx pre b post hres
    rwa [hp] at this
  · obtain ⟨c, hc⟩ := resolve_ok_of_not_bad (env.now 0) b hb
    simp [BuildPayload, buildLoop, hc, entryHighlights, contentBody, hann, htext]

/-- A bookmark of blanks between two sample bookmarks adds nothing. -/
theorem C5_empty_bookmark_is_skipped_witness :
    EmitsInContext sampleEnv sampleIndex [sampleBookmark]
      ⟨sampleID, " \n ".toList, [], "2006-01-02T15:04:05.000".toList, []⟩ [sampleBookmark] [] ∧
    BuildPayload sampleEnv [⟨sampleID, " \n ".toList, [], "2006-01-02T15:04:05.000".toList, []⟩]
      sampleIndex = ([⟨[]⟩], none) :=
  C5_empty_bookmark_is_skipped sampleEnv sampleIndex [sampleBookmark]
    ⟨sampleID, " \n ".toList, [], "2006-01-02T15:04:05.000".toList, []⟩ [sampleBookmark]
    (by decide) rfl (by decide)

/-- C6. With every timestamp of the input resolving and chunks long enough for the
placeholder, a bookmark with an annotation and a text that is empty after
normalisation adds exactly one highlight, whose content is the placeholder
`Placeholder for attached annotation`. -/
theorem C6_annotation_only_gets_placeholder (env : Env) (idx : ContentIndex)
    (pre : List Bookmark) (b : Bookmark) (post : List Bookmark)
    (hres : ∀ x ∈ pre ++ b :: post, badTimestamp x = false)
    (hann : b.Annotation ≠ []) (htext : NormaliseText b.Text = [])
    (hlen : 35 ≤ env.MaxHighlightLen) :
    ∃ h : Highlight, EmitsInContext env idx pre b post [h] ∧
      h.Content = "Placeholder for attached annotation".toList := by
  have hb : badTimestamp b = false := hres b (by simp)
  obtain ⟨c, hc⟩ := resolve_ok_of_not_bad (env.now pre.length) b hb
  have hbody : contentBody b = placeholder := by simp [contentBody, hann, htext]
  have hsplit : splitHighlight placeholder env.MaxHighlightLen = [placeholder] :=
    splitHighlight_short _ _ (by decide) (by
      have : placeholder.length = 35 := by decide
      omega)
  have hp : producedBy env idx pre.length b =
      [⟨placeholder, b.VolumeID,
        resolveTitle env (idx.get b.VolumeID) b ++ " - ".toList ++ (idx.get b.VolumeID).Attribution,
        c, extractTags b.Annotation, (idx.get b.VolumeID).Attribution⟩] := by
    rw [producedBy_eq env idx _ b c hc]
    simp [entryHighlights, hbody, hann, hsplit]
  have := emitsInContext_producedBy env idx pre b post hres
  rw [hp] at this
  exact ⟨_, this, rfl⟩

/-- A bookmark with an annotation only, between two sample bookmarks, adds the placeholder. -/
theorem C6_annotation_only_gets_placeholder_witness :
    ∃ h : Highlight, EmitsInContext sampleEnv sampleIndex [sampleBookmark]
        ⟨sampleID, [], "Making a note here".toList, "2006-01-02T15:04:05.000".toList, []⟩
        [sampleBookmark] [h] ∧
      h.Content = "Placeholder for attached annotation".toList :=
  C6_annotation_only_gets_placeholder sampleEnv sampleIndex [sampleBookmark]
    ⟨sampleID, [], "Making a note here".toList, "2006-01-02T15:04:05.000".toList, []⟩
    [sampleBookmark] (by decide) (by decide) (by decide) (by decide)

/-- C7, as stated, fails: with an empty title and an empty attribution in the index the
highlight of the sample bookmark does not have the title `Good Book - An Author`. -/
theorem C7_counterexample_trailing_separator :
    ∃ h ∈ allHighlights (BuildPayload sampleEnv [sampleBookmark] untitledIndex).1,
      h.Title ≠ "Good Book - An Author".toList := by
  decide

/-- C7, amended. For the identifier `mnt://kobo/blah/Good Book - An Author.epub` and a
content with an empty title and an empty attribution, the title is resolved to the
last path segment without `.epub`, `Good Book - An Author`, and every highlight emitted
for the bookmark has that title followed by the separator and the empty attribution:
`Good Book - An Author - `. -/
theorem C7_title_from_file_name (env : Env) (idx : ContentIndex) (pre : List Bookmark)
    (b : Bookmark) (post : List Bookmark)
    (hres : ∀ x ∈ pre ++ b :: post, badTimestamp x = false)
    (hurl : env.urlParse b.VolumeID = urlParsePath b.VolumeID)
    (hid : b.VolumeID = "mnt://kobo/blah/Good Book - An Author.epub".toList)
    (htitle : (idx.get b.VolumeID).Title = [])
    (hattr : (idx.get b.VolumeID).Attribution = []) :
    EmitsInContext env idx pre b post (producedBy env idx pre.length b) ∧
    resolveTitle env (idx.get b.VolumeID) b = "Good Book - An Author".toList ∧
    ∀ h ∈ producedBy env idx pre.length b, h.Title = "Good Book - An Author - ".toList := by
  have hb : badTimestamp b = false := hres b (by simp)
  obtain ⟨c, hc⟩ := resolve_ok_of_not_bad (env.now pre.length) b hb
  have hpath : urlParsePath "mnt://kobo/blah/Good Book - An Author.epub".toList =
      some "/blah/Good Book - An Author.epub".toList := by decide
  have hrt : resolveTitle env (idx.get b.VolumeID) b = "Good Book - An Author".toList := by
    simp only [resolveTitle, htitle, if_true, hurl]
    rw [hid, hpath]
    decide
  refine ⟨emitsInContext_producedBy env idx pre b post hres, hrt, ?_⟩
  intro h hh
  rw [(producedBy_fields env idx _ b c hc h hh).2.1, hrt, hattr]
  decide

/-- The sample bookmark with the index that knows neither title nor author. -/
theorem C7_title_from_file_name_witness :
    (resolveTitle sampleEnv (untitledIndex.get sampleBookmark.VolumeID) sampleBookmark =
      "Good Book - An Author".toList) ∧
    ∀ h ∈ producedBy sampleEnv untitledIndex 0 sampleBookmark,
      h.Title = "Good Book - An Author - ".toList :=
  (C7_title_from_file_name sampleEnv untitledIndex [] sampleBookmark [] (by decide) rfl rfl
    (by decide) (by decide)).2

/-- C8. With every timestamp of the input resolving, all highlights a run emits for a
bookmark share their `URL`, the identifier of the bookmark; their `Author`, the
attribution of the content the index gives for that identifier, which is the empty
content when the index has no entry; their `Title`, the resolved title, then ` - `,
then that attribution, so that an empty attribution leaves the separator at the end;
and their `Created`. -/
theorem C8_fields_shared_by_chunks (env : Env) (idx : ContentIndex) (pre : List Bookmark)
    (b : Bookmark) (post : List Bookmark)
    (hres : ∀ x ∈ pre ++ b :: post, badTimestamp x = false) :
    EmitsInContext env idx pre b post (producedBy env idx pre.length b) ∧
    (idx b.VolumeID = none → idx.get b.VolumeID = ⟨[], [], []⟩) ∧
    ((idx.get b.VolumeID).Title ≠ [] →
      resolveTitle env (idx.get b.VolumeID) b = (idx.get b.VolumeID).Title) ∧
    ∃ created : Str, ∀ h ∈ producedBy env idx pre.length b,
      h.URL = b.VolumeID ∧
      h.Author = (idx.get b.VolumeID).Attribution ∧
      h.Title = resolveTitle env (idx.get b.VolumeID) b ++ " - ".toList ++
        (idx.get b.VolumeID).Attribution ∧
      ((idx.get b.VolumeID).Attribution = [] →
        h.Title = resolveTitle env (idx.get b.VolumeID) b ++ " - ".toList) ∧
      h.Created = created := by
  have hb : badTimestamp b = false := hres b (by simp)
  obtain ⟨c, hc⟩ := resolve_ok_of_not_bad (env.now pre.length) b hb
  refine ⟨emitsInContext_producedBy env idx pre b post hres, ?_, ?_, c, ?_⟩
  · intro hnone
    simp [ContentIndex.get, hnone, Content.zero]
  · intro hne
    simp [resolveTitle, hne]
  · intro h hh
    obtain ⟨h1, h2, h3, _, h5⟩ := producedBy_fields env idx _ b c hc h hh
    refine ⟨h1, h5, h2, ?_, h3⟩
    intro hattr
    rw [h2, hattr, List.append_nil]

/-- The sample bookmark with the index that knows neither title nor author. -/
theorem C8_fields_shared_by_chunks_witness :
    ∃ created : Str, ∀ h ∈ producedBy sampleEnv untitledIndex 0 sampleBookmark,
      h.URL = sampleBookmark.VolumeID ∧
      h.Author = (untitledIndex.get sampleBookmark.VolumeID).Attribution ∧
      h.Title = resolveTitle sampleEnv (untitledIndex.get sampleBookmark.VolumeID) sampleBookmark
        ++ " - ".toList ++ (untitledIndex.get sampleBookmark.VolumeID).Attribution ∧
      ((untitledIndex.get sampleBookmark.VolumeID).Attribution = [] →
        h.Title = resolveTitle sampleEnv (untitledIndex.get sampleBookmark.VolumeID)
          sampleBookmark ++ " - ".toList) ∧
      h.Created = created :=
  (C8_fields_shared_by_chunks sampleEnv untitledIndex [] sampleBookmark [] (by decide)).2.2.2

/-- C9. With every timestamp of the input resolving, the annotation of a bookmark is
a sequence of tokens without spaces, written with one space between neighbours, and
the `Tags` of every highlight emitted for the bookmark are the tokens that begin with
`.`, each without that one `.`, in their order and with repetitions; the annotation
`Making a note here` gives no tag. -/
theorem C9_tags_are_dotted_tokens (env : Env) (idx : ContentIndex) (pre : List Bookmark)
    (b : Bookmark) (post : List Bookmark)
    (hres : ∀ x ∈ pre ++ b :: post, badTimestamp x = false) :
    EmitsInContext env idx pre b post (producedBy env idx pre.length b) ∧
    (∃ tokens : List Str, tokens ≠ [] ∧ (∀ t ∈ tokens, ' ' ∉ t) ∧
      joinWithSpaces tokens = b.Annotation ∧
      ∀ h ∈ producedBy env idx pre.length b, h.Tags = tokens.filterMap dotTag) ∧
    ( b.Annotation = "Making a note here".toList →
      ∀ h ∈ producedBy env idx pre.length b, h.Tags = []) := by
  have hb : badTimestamp b = false := hres b (by simp)
  obtain ⟨c, hc⟩ := resolve_ok_of_not_bad (env.now pre.length) b hb
  refine ⟨emitsInContext_producedBy env idx pre b post hres,
    ⟨splitOnSpace b.Annotation, splitOnSpace_ne_nil _, splitOnSpace_no_space _,
      joinWithSpaces_splitOnSpace _, ?_⟩, ?_⟩
  · intro h hh
    rw [(producedBy_fields env idx _ b c hc h hh).2.2.2.1, extractTags_eq]
  · intro hann h hh
    rw [(producedBy_fields env idx _ b c hc h hh).2.2.2.1, hann]
    decide

/-- The sample bookmark, annotated `Making a note here`, gets no tag. -/
theorem C9_tags_are_dotted_tokens_witness :
    EmitsInContext sampleEnv sampleIndex [] sampleBookmark []
      (producedBy sampleEnv sampleIndex 0 sampleBookmark) ∧
    ∀ h ∈ producedBy sampleEnv sampleIndex 0 sampleBookmark, h.Tags = [] :=
  ⟨(C9_tags_are_dotted_tokens sampleEnv sampleIndex [] sampleBookmark [] (by decide)).1,
   (C9_tags_are_dotted_tokens sampleEnv sampleIndex [] sampleBookmark [] (by decide)).2.2 rfl⟩

/-- C10. With every timestamp of the input resolving and a positive chunk length `L`,
the contents of the highlights a run emits for a bookmark with a non-empty normalised
text, written one after the other, are that text; each content has at most `L`
characters and each one but the last exactly `L`; a text of at most `L` characters
gives one highlight; and when a text of 20000 characters has three chunks they are
`text[0:L]`, `text[L:2L]` and `text[2L:20000]`. -/
theorem C10_chunks_rebuild_text (env : Env) (idx : ContentIndex) (pre : List Bookmark)
    (b : Bookmark) (post : List Bookmark)
    (hres : ∀ x ∈ pre ++ b :: post, badTimestamp x = false)
    (htext : NormaliseText b.Text ≠ []) (hL : 0 < env.MaxHighlightLen) :
    EmitsInContext env idx pre b post (producedBy env idx pre.length b) ∧
    ((producedBy env idx pre.length b).map (fun h => h.Content)).flatten =
      NormaliseText b.Text ∧
    (∀ h ∈ producedBy env idx pre.length b, h.Content.length ≤ env.MaxHighlightLen) ∧
    (∀ i h, i + 1 < (producedBy env idx pre.length b).length →
      (producedBy env idx pre.length b)[i]? = some h →
      h.Content.length = env.MaxHighlightLen) ∧
    ((NormaliseText b.Text).length ≤ env.MaxHighlightLen →
      (producedBy env idx pre.length b).map (fun h => h.Content) = [NormaliseText b.Text]) ∧
    ((NormaliseText b.Text).length = 20000 → 2 * env.MaxHighlightLen < 20000 →
      20000 ≤ 3 * env.MaxHighlightLen →
      (producedBy env idx pre.length b).map (fun h => h.Content) =
        [(NormaliseText b.Text).take env.MaxHighlightLen,
         ((NormaliseText b.Text).drop env.MaxHighlightLen).take env.MaxHighlightLen,
         (NormaliseText b.Text).drop (2 * env.MaxHighlightLen)]) := by
  have hb : badTimestamp b = false := hres b (by simp)
  have hemit := emitsInContext_producedBy env idx pre b post hres
  have hcont := producedBy_contents env idx pre.length b hb htext
  have hget := splitHighlight_getElem (NormaliseText b.Text) env.MaxHighlightLen hL
  generalize env.MaxHighlightLen = L at *
  generalize NormaliseText b.Text = text at *
  generalize producedBy env idx pre.length b = hs at *
  have hlenmap : hs.length = (splitHighlight text L).length := by
    rw [← hcont, List.length_map]
  have hidx : ∀ i h, hs[i]? = some h →
      i * L < text.length ∧ h.Content = (text.drop (i * L)).take L := by
    intro i h hi
    have h1 : (hs.map (fun h => h.Content))[i]? = some h.Content := by
      rw [List.getElem?_map, hi]
      rfl
    rw [hcont, hget i] at h1
    by_cases hc : i * L < text.length
    · rw [if_pos hc] at h1
      exact ⟨hc, (Option.some.inj h1).symm⟩
    · rw [if_neg hc] at h1
      cases h1
  refine ⟨hemit, ?_, ?_, ?_, ?_, ?_⟩
  · rw [hcont]
    exact splitHighlight_flatten text L hL
  · intro h hh
    obtain ⟨i, hi⟩ := List.mem_iff_getElem?.mp hh
    rw [(hidx i h hi).2, List.length_take]
    omega
  · intro i h hi hsome
    have hnext : (i + 1) * L < text.length := by
      have h2 : (splitHighlight text L)[i + 1]? ≠ none := by
        rw [Ne, List.getElem?_eq_none_iff]
        omega
      rw [hget (i + 1)] at h2
      by_contra hcon
      exact h2 (if_neg hcon)
    rw [(hidx i h hsome).2, List.length_take, List.length_drop]
    have e1 : (i + 1) * L = i * L + L := Nat.succ_mul i L
    omega
  · intro hshort
    rw [hcont]
    exact splitHighlight_short text L htext hshort
  · intro h20 h2 h3
    rw [hcont]
    apply List.ext_getElem?
    intro i
    rw [hget i]
    rcases i with _ | _ | _ | i
    · simp [h20]
    · have : L < text.length := by omega
      simp [this]
    · have : 2 * L < text.length := by omega
      have hd : (text.drop (2 * L)).take L = text.drop (2 * L) :=
        List.take_of_length_le (by simp only [List.length_drop]; omega)
      simp [this, hd]
    · have e1 : (i + 1 + 1 + 1) * L = i * L + 3 * L := by
        rw [Nat.add_mul, Nat.add_mul, Nat.add_mul]
        omega
      have : ¬ (i + 1 + 1 + 1) * L < text.length := by omega
      simp [this]

/-- The sample bookmark is one chunk of at most 8191 characters, and its chunks of at most
4 characters rebuild its text. -/
theorem C10_chunks_rebuild_text_witness :
    (producedBy sampleEnv sampleIndex 0 sampleBookmark).map (fun h => h.Content) =
      [NormaliseText sampleBookmark.Text] ∧
    ((producedBy ⟨urlParsePath, sampleClock, 4⟩ sampleIndex 0 sampleBookmark).map
      (fun h => h.Content)).flatten = NormaliseText sampleBookmark.Text :=
  ⟨(C10_chunks_rebuild_text sampleEnv sampleIndex [] sampleBookmark [] (by decide) (by decide)
      (by decide)).2.2.2.2.1 (by decide),
   (C10_chunks_rebuild_text ⟨urlParsePath, sampleClock, 4⟩ sampleIndex [] sampleBookmark []
      (by decide) (by decide) (by decide)).2.1⟩

/-- C11. For batches that hold no highlight at all, be it no batch or only empty ones,
and for every token, `SendBookmarks` returns the count 0 and no error and hands no
request to the client; so it does for the one empty batch that `BuildPayload` returns
for no bookmarks. -/
theorem C11_nothing_to_send (n : Notado) (client : Request → Exchange)
    (payloads : List Response) (token : Str)
    (h : ∀ p ∈ payloads, p.Highlights = []) :
    SendBookmarks n client payloads token = ⟨0, none, []⟩ ∧
    SendBookmarks n client [] token = ⟨0, none, []⟩ ∧
    ∀ (env : Env) (idx : ContentIndex),
      SendBookmarks n client (BuildPayload env [] idx).1 token = ⟨0, none, []⟩ := by
  have key : ∀ ps : List Response, (∀ p ∈ ps, p.Highlights = []) →
      SendBookmarks n client ps token = ⟨0, none, []⟩ := by
    intro ps hps
    have h0 : allHighlights ps = [] := (allHighlights_eq_nil_iff ps).mpr hps
    simp [SendBookmarks, foldl_highlights, h0]
  refine ⟨key payloads h, key [] (by simp), ?_⟩
  intro env idx
  exact key _ (by simp [BuildPayload, buildLoop])

/-- Two empty batches and the failing client: nothing is sent and nothing fails. -/
theorem C11_nothing_to_send_witness :
    SendBookmarks sampleNotado failingClient [⟨[]⟩, ⟨[]⟩] "secret".toList = ⟨0, none, []⟩ ∧
    SendBookmarks sampleNotado failingClient (BuildPayload sampleEnv [] sampleIndex).1
      "secret".toList = ⟨0, none, []⟩ :=
  ⟨(C11_nothing_to_send sampleNotado failingClient [⟨[]⟩, ⟨[]⟩] "secret".toList
      (by decide)).1,
   (C11_nothing_to_send sampleNotado failingClient [⟨[]⟩, ⟨[]⟩] "secret".toList
      (by decide)).2.2 sampleEnv sampleIndex⟩

/-- C12. For batches that hold at least one highlight, `SendBookmarks` hands exactly
one request to the client, a POST to the service with the token, whose notes are the
highlights of all batches in batch order; a response with status 200 makes it return
the number of highlights of all batches and no error, a response with any other status
makes it return 0 and an error, and so does a request that could not be sent. -/
theorem C12_one_request_with_all_highlights (n : Notado) (client : Request → Exchange)
    (payloads : List Response) (token : Str)
    (h : ∃ p ∈ payloads, p.Highlights ≠ []) :
    ∃ req : Request,
      (SendBookmarks n client payloads token).requests = [req] ∧
      req.Notes = (payloads.map (fun p => p.Highlights)).flatten ∧
      req.Method = "POST".toList ∧ req.URL = "https://notado.app/graphql".toList ∧
      req.ApiToken = token ∧
      (client req = .response 200 →
        (SendBookmarks n client payloads token).count =
          (payloads.map (fun p => p.Highlights.length)).sum ∧
        (SendBookmarks n client payloads token).err = none) ∧
      (∀ code : Int, client req = .response code → code ≠ 200 →
        (SendBookmarks n client payloads token).count = 0 ∧
        (SendBookmarks n client payloads token).err = some (.status code)) ∧
      (∀ err : Str, client req = .failed err →
        (SendBookmarks n client payloads token).count = 0 ∧
        (SendBookmarks n client payloads token).err = some (.notSent err)) := by
  have hne : allHighlights payloads ≠ [] := by
    intro h0
    obtain ⟨p, hp, hp2⟩ := h
    exact hp2 ((allHighlights_eq_nil_iff payloads).mp h0 p hp)
  have hlen : ¬ (allHighlights payloads).length = 0 := by
    intro h0
    exact hne (List.length_eq_zero.mp h0)
  refine ⟨⟨"POST".toList, "https://notado.app/graphql".toList, token, "application/json".toList,
    n.UserAgent, importNotesQuery, allHighlights payloads⟩, ?_, allHighlights_eq_flatten payloads,
    rfl, rfl, rfl, ?_, ?_, ?_⟩
  · simp only [SendBookmarks, foldl_highlights, List.nil_append, hlen, if_false]
    split
    · rfl
    · split <;> rfl
  · intro hc
    simp only [SendBookmarks, foldl_highlights, List.nil_append, hlen, if_false, hc]
    simp [allHighlights_length]
  · intro code hc hcode
    simp only [SendBookmarks, foldl_highlights, List.nil_append, hlen, if_false, hc]
    simp [hcode]
  · intro err hc
    simp only [SendBookmarks, foldl_highlights, List.nil_append, hlen, if_false, hc]
    simp

/-- A batch of the sample bookmark and an empty batch: the sample client answers 200
and the count is 1; the failing client answers 500 and the count is 0 with an error. -/
theorem C12_one_request_with_all_highlights_witness :
    ((SendBookmarks sampleNotado sampleClient
        ((BuildPayload sampleEnv [sampleBookmark] sampleIndex).1 ++ [⟨[]⟩])
        "secret".toList).count = 1 ∧
      (SendBookmarks sampleNotado sampleClient
        ((BuildPayload sampleEnv [sampleBookmark] sampleIndex).1 ++ [⟨[]⟩])
        "secret".toList).err = none) ∧
    ((SendBookmarks sampleNotado failingClient
        ((BuildPayload sampleEnv [sampleBookmark] sampleIndex).1 ++ [⟨[]⟩])
        "secret".toList).count = 0 ∧
      (SendBookmarks sampleNotado failingClient
        ((BuildPayload sampleEnv [sampleBookmark] sampleIndex).1 ++ [⟨[]⟩])
        "secret".toList).err = some (.status 500)) := by
  constructor
  · obtain ⟨req, _, _, _, hurl, _, h200, _, _⟩ :=
      C12_one_request_with_all_highlights sampleNotado sampleClient
        ((BuildPayload sampleEnv [sampleBookmark] sampleIndex).1 ++ [⟨[]⟩]) "secret".toList
        (by decide)
    exact h200 (by simp [sampleClient, hurl])
  · obtain ⟨req, _, _, _, _, _, _, hother, _⟩ :=
      C12_one_request_with_all_highlights sampleNotado failingClient
        ((BuildPayload sampleEnv [sampleBookmark] sampleIndex).1 ++ [⟨[]⟩]) "secret".toList
        (by decide)
    exact hother 500 rfl (by decide)

/-- C13. `NormaliseText s` is `s` without the white space in front and behind, with each
line feed replaced by one space, position by position: it holds no line feed, it is as
long as the trimmed text, so that nothing is collapsed, and `NormaliseText " a\nb "` is
`"a b"`. -/
theorem C13_normalise_trims_and_replaces_newlines (s : Str) :
    (∃ l r : Str, s = l ++ TrimSpace s ++ r ∧
      (∀ c ∈ l, isSpace c = true) ∧ (∀ c ∈ r, isSpace c = true) ∧
      (∀ c, (TrimSpace s).head? = some c → isSpace c = false) ∧
      (∀ c, (TrimSpace s).getLast? = some c → isSpace c = false)) ∧
    NormaliseText s = (TrimSpace s).map (fun c => if c = '\n' then ' ' else c) ∧
    '\n' ∉ NormaliseText s ∧
    (NormaliseText s).length = (TrimSpace s).length ∧
    NormaliseText "\n\n".toList = [] ∧
    NormaliseText "a\n\nb".toList = "a  b".toList ∧
    NormaliseText " a\nb ".toList = "a b".toList := by
  refine ⟨TrimSpace_spec s, rfl, ?_, ?_, by decide, by decide, by decide⟩
  · simp only [NormaliseText, replaceNewlines, List.mem_map, not_exists, not_and]
    intro c _
    by_cases hc : c = '\n'
    · simp [hc]
    · simp [hc]
  · simp [NormaliseText, replaceNewlines]

/-- C14. The free text of an annotation does not reach the output: two inputs whose
bookmarks are pairwise the same, or differ only in their annotations, both non-empty
and with the same tokens that begin with `.`, give the same result of `BuildPayload`
for the same index and clock.  More generally the result is the same as soon as the
annotations agree on being empty and on their tags. -/
theorem C14_annotation_text_not_in_output (env : Env) (idx : ContentIndex)
    (bs1 bs2 : List Bookmark) (h : List.Forall₂ annotationVariant bs1 bs2) :
    BuildPayload env bs1 idx = BuildPayload env bs2 idx ∧
    ∀ cs1 cs2 : List Bookmark, List.Forall₂ sameEmptinessAndTags cs1 cs2 →
      BuildPayload env cs1 idx = BuildPayload env cs2 idx := by
  constructor
  · exact buildLoop_congr env idx bs1 bs2
      (h.imp (fun b1 b2 hb => sameEmptinessAndTags_of_variant b1 b2 hb)) 0 [] ⟨[]⟩
  · intro cs1 cs2 hcs
    exact buildLoop_congr env idx cs1 cs2 hcs 0 [] ⟨[]⟩

/-- Two annotations with the tags `a` and `b` around different words give the same
batches for the sample book. -/
theorem C14_annotation_text_not_in_output_witness :
    BuildPayload sampleEnv
        [⟨sampleID, "Hello World".toList, "keep .a this .b".toList, [], []⟩, sampleBookmark]
        sampleIndex =
      BuildPayload sampleEnv
        [⟨sampleID, "Hello World".toList, ".a .b or not".toList, [], []⟩, sampleBookmark]
        sampleIndex :=
  (C14_annotation_text_not_in_output sampleEnv sampleIndex
    [⟨sampleID, "Hello World".toList, "keep .a this .b".toList, [], []⟩, sampleBookmark]
    [⟨sampleID, "Hello World".toList, ".a .b or not".toList, [], []⟩, sampleBookmark]
    (List.Forall₂.cons
      (Or.inr ⟨rfl, rfl, rfl, rfl, by decide, by decide, by decide⟩)
      (List.Forall₂.cons (Or.inl rfl) List.Forall₂.nil))).1

end Noctober
